import Mathlib

/-!
# win32-clipboard-listener: the clipboard-update handler and its text codec

A shallow embedding of `cliplistener.go` / `winapi.go`.

* Namespaces `utf8`, `utf16`, `syscall`: the Go standard-library routines the
  handler calls (`syscall.UTF16ToString`, `syscall.UTF16FromString` and what
  they are built from: `unicode/utf8`, `unicode/utf16`, the WTF-8 helpers of
  package `syscall`, as of go1.21 and later).  A Go `string` is its list of
  bytes, a `[]uint16` is a list of code units; both are lists of `Nat`.
* Namespace `ClipListener`: the window procedure registered by
  `initWindowsClipboardListener`, `tryOpenWinApiClipboard` and the `listen`
  loop.  Every Win32 call is recorded in a call trace, and the answers of the
  operating system are read from an explicit environment record.  The
  unbounded recursion of `tryOpenWinApiClipboard` carries a depth bound.
* Namespace `Reference`: the UTF-16 encoding form of a text, against which the
  round trip of the handler is stated.
* Namespace `Codec` and the sections after it: the proofs.
-/

/-! ## Package `unicode/utf8` -/

namespace utf8

abbrev RuneError : Nat := 0xFFFD
abbrev MaxRune : Nat := 0x10FFFF
abbrev surrogateMin : Nat := 0xD800
abbrev surrogateMax : Nat := 0xDFFF

abbrev t1 : Nat := 0x00
abbrev tx : Nat := 0x80
abbrev t2 : Nat := 0xC0
abbrev t3 : Nat := 0xE0
abbrev t4 : Nat := 0xF0

abbrev maskx : Nat := 0x3F
abbrev mask2 : Nat := 0x1F
abbrev mask3 : Nat := 0x0F
abbrev mask4 : Nat := 0x07

abbrev rune1Max : Nat := 0x7F
abbrev rune2Max : Nat := 0x7FF
abbrev rune3Max : Nat := 0xFFFF

abbrev locb : Nat := 0x80
abbrev hicb : Nat := 0xBF

/-- Conversion `byte(x)` of a non-negative integer: the low eight bits. -/
def byte (x : Nat) : Nat := x % 256

/-- Function `appendRuneNonASCII`: the two-, three- and four-byte forms; a rune
above `MaxRune` or in the surrogate range is written as `RuneError`. -/
def appendRuneNonASCII (p : List Nat) (r : Nat) : List Nat :=
  if r ≤ rune2Max then
    p ++ [t2 ||| byte (r >>> 6), tx ||| (byte r &&& maskx)]
  else if r > MaxRune ∨ (surrogateMin ≤ r ∧ r ≤ surrogateMax) then
    p ++ [t3 ||| byte (RuneError >>> 12), tx ||| (byte (RuneError >>> 6) &&& maskx),
      tx ||| (byte RuneError &&& maskx)]
  else if r ≤ rune3Max then
    p ++ [t3 ||| byte (r >>> 12), tx ||| (byte (r >>> 6) &&& maskx), tx ||| (byte r &&& maskx)]
  else
    p ++ [t4 ||| byte (r >>> 18), tx ||| (byte (r >>> 12) &&& maskx),
      tx ||| (byte (r >>> 6) &&& maskx), tx ||| (byte r &&& maskx)]

/-- Function `utf8.AppendRune`: appends the UTF-8 encoding of `r` to `p`. -/
def AppendRune (p : List Nat) (r : Nat) : List Nat :=
  if r ≤ rune1Max then p ++ [byte r] else appendRuneNonASCII p r

abbrev xx : Nat := 0xF1
abbrev as : Nat := 0xF0
abbrev s1 : Nat := 0x02
abbrev s2 : Nat := 0x13
abbrev s3 : Nat := 0x03
abbrev s4 : Nat := 0x23
abbrev s5 : Nat := 0x34
abbrev s6 : Nat := 0x04
abbrev s7 : Nat := 0x44

/-- Table `first`: information about the first byte of a UTF-8 sequence, given
row by row as in the Go source. -/
def first (b : Nat) : Nat :=
  if b < 0x80 then as
  else if b < 0xC2 then xx
  else if b < 0xE0 then s1
  else if b = 0xE0 then s2
  else if b < 0xED then s3
  else if b = 0xED then s4
  else if b < 0xF0 then s3
  else if b = 0xF0 then s5
  else if b < 0xF4 then s6
  else if b = 0xF4 then s7
  else xx

/-- Table `acceptRanges`: the range `(lo, hi)` allowed for the second byte. -/
def acceptRanges (i : Nat) : Nat × Nat :=
  match i with
  | 0 => (locb, hicb)
  | 1 => (0xA0, hicb)
  | 2 => (locb, 0x9F)
  | 3 => (0x90, hicb)
  | 4 => (locb, 0x8F)
  | _ => (0, 0)

/-- Function `utf8.DecodeRuneInString`: the first rune of `s` and its width in
bytes; `(RuneError, 0)` on the empty string and `(RuneError, 1)` on an invalid
encoding. -/
def DecodeRuneInString (s : List Nat) : Nat × Nat :=
  let n := s.length
  if n < 1 then (RuneError, 0)
  else
    let s0 := s.getD 0 0
    let x := first s0
    if x ≥ as then
      -- mask is all ones exactly when the low bit of x is set (x = xx)
      (if x &&& 1 = 1 then RuneError else s0, 1)
    else
      let sz := x &&& 7
      let accept := acceptRanges (x >>> 4)
      if n < sz then (RuneError, 1)
      else
        let b1 := s.getD 1 0
        if b1 < accept.1 ∨ accept.2 < b1 then (RuneError, 1)
        else if sz ≤ 2 then (((s0 &&& mask2) <<< 6) ||| (b1 &&& maskx), 2)
        else
          let b2 := s.getD 2 0
          if b2 < locb ∨ hicb < b2 then (RuneError, 1)
          else if sz ≤ 3 then
            (((s0 &&& mask3) <<< 12) ||| ((b1 &&& maskx) <<< 6) ||| (b2 &&& maskx), 3)
          else
            let b3 := s.getD 3 0
            if b3 < locb ∨ hicb < b3 then (RuneError, 1)
            else
              (((s0 &&& mask4) <<< 18) ||| ((b1 &&& maskx) <<< 12) ||| ((b2 &&& maskx) <<< 6)
                ||| (b3 &&& maskx), 4)

end utf8

/-! ## Package `unicode/utf16` -/

namespace utf16

abbrev replacementChar : Nat := 0xFFFD
abbrev maxRune : Nat := 0x10FFFF
abbrev surr1 : Nat := 0xd800
abbrev surr2 : Nat := 0xdc00
abbrev surr3 : Nat := 0xe000
abbrev surrSelf : Nat := 0x10000

/-- Conversion `uint16(x)` of a non-negative integer: the low sixteen bits. -/
def uint16 (x : Nat) : Nat := x % 65536

/-- Function `utf16.DecodeRune`: the rune of a surrogate pair, `replacementChar`
when the pair is not valid. -/
def DecodeRune (r1 r2 : Nat) : Nat :=
  if surr1 ≤ r1 ∧ r1 < surr2 ∧ surr2 ≤ r2 ∧ r2 < surr3 then
    (((r1 - surr1) <<< 10) ||| (r2 - surr2)) + surrSelf
  else replacementChar

/-- Function `utf16.EncodeRune`: the surrogate pair of a rune. -/
def EncodeRune (r : Nat) : Nat × Nat :=
  if r < surrSelf ∨ r > maxRune then (replacementChar, replacementChar)
  else (surr1 + (((r - surrSelf) >>> 10) &&& 0x3ff), surr2 + ((r - surrSelf) &&& 0x3ff))

/-- Function `utf16.AppendRune`: appends the UTF-16 encoding of `r` to `a`. -/
def AppendRune (a : List Nat) (r : Nat) : List Nat :=
  if r < surr1 ∨ (surr3 ≤ r ∧ r < surrSelf) then a ++ [uint16 r]
  else if surrSelf ≤ r ∧ r ≤ maxRune then
    a ++ [uint16 (EncodeRune r).1, uint16 (EncodeRune r).2]
  else a ++ [replacementChar]

end utf16

/-! ## Package `syscall` (Windows): WTF-8 helpers and the two string conversions -/

namespace syscall

deriving instance DecidableEq for Except

/-- Error values of package `syscall` that the conversions can return. -/
inductive Errno where
  | EINVAL
  deriving DecidableEq, Repr

/-- Function `decodeWTF16`: the WTF-8 encoding of the possibly ill-formed UTF-16
sequence `s`, appended to `buf`.  An unpaired surrogate is written in the
three-byte form. -/
def decodeWTF16 : List Nat → List Nat → List Nat
  | [], buf => buf
  | [r], buf =>
    if r < utf16.surr1 ∨ utf16.surr3 ≤ r then utf8.AppendRune buf r
    else
      let ar := if r > utf8.MaxRune then utf8.RuneError else r
      buf ++ [utf8.t3 ||| utf8.byte (ar >>> 12),
        utf8.tx ||| (utf8.byte (ar >>> 6) &&& utf8.maskx), utf8.tx ||| (utf8.byte ar &&& utf8.maskx)]
  | r :: r2 :: rest, buf =>
    if r < utf16.surr1 ∨ utf16.surr3 ≤ r then
      decodeWTF16 (r2 :: rest) (utf8.AppendRune buf r)
    else if utf16.surr1 ≤ r ∧ r < utf16.surr2 ∧ utf16.surr2 ≤ r2 ∧ r2 < utf16.surr3 then
      decodeWTF16 rest (utf8.AppendRune buf (utf16.DecodeRune r r2))
    else
      let ar := if r > utf8.MaxRune then utf8.RuneError else r
      decodeWTF16 (r2 :: rest) (buf ++ [utf8.t3 ||| utf8.byte (ar >>> 12),
        utf8.tx ||| (utf8.byte (ar >>> 6) &&& utf8.maskx), utf8.tx ||| (utf8.byte ar &&& utf8.maskx)])

/-- One pass of the loop of `encodeWTF16` over the unread part `s` of the string;
`fuel` bounds the number of iterations. -/
def encodeWTF16Loop : Nat → List Nat → List Nat → List Nat
  | 0, _, buf => buf
  | fuel + 1, s, buf =>
    if s.length = 0 then buf
    else
      let d := utf8.DecodeRuneInString s
      if d.1 = utf8.RuneError ∧ s.length ≥ 3 ∧ s.getD 0 0 = 0xED ∧ 0xA0 ≤ s.getD 1 0 ∧
          s.getD 1 0 ≤ 0xBF ∧ 0x80 ≤ s.getD 2 0 ∧ s.getD 2 0 ≤ 0xBF then
        let r := ((s.getD 0 0 &&& utf8.mask3) <<< 12) + ((s.getD 1 0 &&& utf8.maskx) <<< 6)
          + (s.getD 2 0 &&& utf8.maskx)
        encodeWTF16Loop fuel (s.drop 3) (buf ++ [utf16.uint16 r])
      else
        encodeWTF16Loop fuel (s.drop d.2) (utf16.AppendRune buf d.1)

/-- Function `encodeWTF16`: the possibly ill-formed UTF-16 encoding of the WTF-8
string `s`, appended to `buf`.  Every iteration consumes at least one byte, so
`len(s)` iterations are enough. -/
def encodeWTF16 (s : List Nat) (buf : List Nat) : List Nat :=
  encodeWTF16Loop s.length s buf

/-- The slice `s[0:i]` for the first index `i` holding zero, and all of `s`
when there is none: the first loop of `UTF16ToString`. -/
def untilNUL : List Nat → List Nat
  | [] => []
  | v :: rest => if v = 0 then [] else v :: untilNUL rest

/-- Function `syscall.UTF16ToString`: the string of the UTF-16 sequence `s`, with
a terminating NUL and everything after it removed. -/
def UTF16ToString (s : List Nat) : List Nat :=
  decodeWTF16 (untilNUL s) []

/-- Function `syscall.UTF16FromString`: the UTF-16 encoding of `s` with a
terminating NUL added; `EINVAL` when `s` contains a NUL byte. -/
def UTF16FromString (s : List Nat) : Except Errno (List Nat) :=
  if s.contains 0 then .error .EINVAL
  else .ok (encodeWTF16 s [] ++ [0])

end syscall

/-! ## The listener: `winapi.go` and `cliplistener.go` -/

namespace ClipListener

abbrev WM_CLIPBOARDUPDATE : Nat := 0x031D
abbrev CF_UNICODETEXT : Nat := 13
abbrev GMEM_MOVEABLE : Nat := 0x0002

/-- Conversion `uintptr(x)` of a non-negative integer on a 64-bit target (the
values converted by the handler stay below `2^22`, see `uintptr_units`). -/
def uintptr (x : Nat) : Nat := x % 2 ^ 64

structure POINT where
  X : Int
  Y : Int
  deriving DecidableEq, Repr

structure MSG where
  Hwnd : Nat
  Message : Nat
  WParam : Nat
  LParam : Nat
  Time : Nat
  Pt : POINT
  deriving DecidableEq, Repr

/-- The fields of `WindowsClipboardListener` that the window procedure and the
loop read or write: the window handle, the message last retrieved by
`getMessage` and the captured text (a Go string, as bytes). -/
structure WindowsClipboardListener where
  wndHandler : Nat
  message : MSG
  copied : List Nat
  deriving DecidableEq, Repr

/-- A call of a `WinApi` method that reaches the operating system, with its
arguments and, where the caller looks at it, the value returned.  For
`moveMemory` the `source` is the array the source pointer points into. -/
inductive Call where
  | openClipboard (ret : Bool)
  | closeClipboard
  | getClipboardData (uFormat : Nat) (ret : Nat)
  | globalLock (hMem : Nat) (ret : Nat)
  | globalUnlock (hMem : Nat)
  | emptyClipboard
  | globalAlloc (uFlags : Nat) (dwBytes : Nat) (ret : Nat)
  | moveMemory (destination : Nat) (source : List Nat) (length : Nat)
  | setClipboardData (uFormat : Nat) (hMem : Nat) (ret : Nat)
  | globalFree (hMem : Nat)
  | defWindowProc (hwnd : Nat) (msg : Nat) (wparam : Nat) (lparam : Nat) (ret : Nat)
  deriving DecidableEq, Repr

/-- A line written by `fmt.Println`, `fmt.Printf` or `log.Fatalln`. -/
inductive Line where
  | getClipboardDataFailed
  | setClipboardDataError
  | setClipboardDataOK
  | copiedAt
  deriving DecidableEq, Repr

/-- The `return` statement that ended the window procedure. -/
inductive ReturnSite where
  | selfSet
  | selfClear
  | noData
  | encodeError
  | done
  | default
  deriving DecidableEq, Repr

/-- The place of a Go run-time panic inside the window procedure. -/
inductive PanicSite where
  | globalLock
  | globalAlloc
  | indexOutOfRange
  deriving DecidableEq, Repr

/-- How an activation of the window procedure ends: a `return`, a panic
(deferred calls run, then the process dies), or `os.Exit` reached through
`log.Fatalln` (the process ends at once and deferred calls are not run). -/
inductive Exit where
  | returned (value : Nat) (site : ReturnSite)
  | panicked (site : PanicSite)
  | osExit (code : Nat)
  deriving DecidableEq, Repr

/-- What the operating system answers during one activation of the window
procedure: the result of the k-th `OpenClipboard`, the handle given by
`GetClipboardData`, the pointer given by `GlobalLock` on that handle, the
16-bit words stored from that pointer on, the handle given by `GlobalAlloc`, the
pointer given by `GlobalLock` on the new block, and the results of
`SetClipboardData` and `DefWindowProcW`. -/
structure Env where
  openClipboard : Nat → Bool
  getClipboardData : Nat
  lockData : Nat
  memory : List Nat
  globalAlloc : Nat
  lockMem : Nat
  setClipboardData : Nat
  defWindowProc : Nat

/-- The state of an activation when its body stops: calls made, lines written,
calls registered with `defer` (in the order of registration), the field
`wcl.copied`, and the way the body stopped. -/
structure Frame where
  calls : List Call
  out : List Line
  deferred : List Call
  copied : List Nat
  exit : Exit
  deriving DecidableEq, Repr

/-- The observable outcome of one activation of the window procedure. -/
structure Result where
  calls : List Call
  out : List Line
  copied : List Nat
  exit : Exit
  deriving DecidableEq, Repr

/-- End of an activation: on a `return` and on a panic the deferred calls run,
last registered first; when the process is ended by `os.Exit` they do not. -/
def runDeferred (f : Frame) : Result :=
  match f.exit with
  | .osExit _ => ⟨f.calls, f.out, f.copied, f.exit⟩
  | _ => ⟨f.calls ++ f.deferred.reverse, f.out, f.copied, f.exit⟩

/-- Method `tryOpenWinApiClipboard`: `openClipboard`, and on failure
`closeClipboard` followed by a recursive call.  `k` counts the calls of
`OpenClipboard` made so far; `fuel` bounds the depth of the recursion, and the
result is `none` when it is used up. -/
def tryOpenWinApiClipboard : Nat → (Nat → Bool) → Nat → Option (List Call)
  | 0, _, _ => none
  | fuel + 1, openClipboard, k =>
    if !(openClipboard k) then
      match tryOpenWinApiClipboard fuel openClipboard (k + 1) with
      | none => none
      | some calls => some (Call.openClipboard false :: Call.closeClipboard :: calls)
    else some [Call.openClipboard true]

/-- The statements of the `WM_CLIPBOARDUPDATE` case that follow
`tryOpenWinApiClipboard` and `defer closeClipboard`. -/
def clipboardUpdateBody (env : Env) (wcl : WindowsClipboardListener) : Frame :=
  if wcl.message.WParam = 0x4 then
    ⟨[], [], [], wcl.copied, .returned 0 .selfSet⟩
  else if wcl.message.WParam = 0x0 then
    ⟨[], [], [], wcl.copied, .returned 0 .selfClear⟩
  else
    let hData := env.getClipboardData
    let c1 := [Call.getClipboardData CF_UNICODETEXT hData]
    if hData = 0 then
      ⟨c1, [.getClipboardDataFailed], [], wcl.copied, .returned 0 .noData⟩
    else
      let dataPtr := env.lockData
      let c2 := c1 ++ [Call.globalLock hData dataPtr]
      if dataPtr = 0 then ⟨c2, [], [], wcl.copied, .panicked .globalLock⟩
      else
        let copied := syscall.UTF16ToString (env.memory.take (1 <<< 20))
        let c3 := c2 ++ [Call.globalUnlock hData, Call.emptyClipboard]
        match syscall.UTF16FromString copied with
        | .error _ => ⟨c3, [], [], copied, .returned 0 .encodeError⟩
        | .ok utf16 =>
          let hMem := env.globalAlloc
          let c4 := c3 ++ [Call.globalAlloc GMEM_MOVEABLE (uintptr (utf16.length * 2)) hMem]
          if hMem = 0 then ⟨c4, [], [], copied, .panicked .globalAlloc⟩
          else
            let dataPtr := env.lockMem
            let c5 := c4 ++ [Call.globalLock hMem dataPtr]
            if dataPtr = 0 then ⟨c5, [], [], copied, .panicked .globalLock⟩
            else if utf16.length = 0 then ⟨c5, [], [], copied, .panicked .indexOutOfRange⟩
            else
              let c6 := c5 ++ [Call.moveMemory dataPtr utf16 (uintptr (utf16.length * 2)),
                Call.globalUnlock hMem]
              let ret := env.setClipboardData
              let c7 := c6 ++ [Call.setClipboardData CF_UNICODETEXT hMem ret]
              if ret = 0 then
                ⟨c7, [.setClipboardDataError], [Call.globalFree hMem], copied, .osExit 1⟩
              else
                ⟨c7, [.setClipboardDataOK, .copiedAt], [], copied, .returned 0 .done⟩

/-- The callback stored in `wmClipboardUpdateHandlerPtr` by
`initWindowsClipboardListener`: the window procedure.  The result is `none`
when `tryOpenWinApiClipboard` does not come back within `fuel` attempts. -/
def wmClipboardUpdateHandler (fuel : Nat) (env : Env) (wcl : WindowsClipboardListener)
    (hwnd msg wparam lparam : Nat) : Option Result :=
  if msg = WM_CLIPBOARDUPDATE then
    match tryOpenWinApiClipboard fuel env.openClipboard 0 with
    | none => none
    | some opened =>
      let f := clipboardUpdateBody env wcl
      some (runDeferred ⟨opened ++ f.calls, f.out, Call.closeClipboard :: f.deferred, f.copied,
        f.exit⟩)
  else
    some ⟨[Call.defWindowProc hwnd msg wparam lparam env.defWindowProc], [], wcl.copied,
      .returned env.defWindowProc .default⟩

/-- Method `getMessage` on the queue of messages posted to the window: the oldest
message whose identifier lies in the filter range is removed and returned;
`none` stands for the call blocking because there is no such message. -/
def getMessage : List MSG → Nat → Nat → Option (MSG × List MSG)
  | [], _, _ => none
  | m :: q, msgFilterMin, msgFilterMax =>
    if msgFilterMin ≤ m.Message ∧ m.Message ≤ msgFilterMax then some (m, q)
    else
      match getMessage q msgFilterMin msgFilterMax with
      | none => none
      | some (m1, q1) => some (m1, m :: q1)

/-- What surrounds the process over a run of the loop: the answers of the
operating system during the k-th dispatch, and the notifications posted to the
window as a consequence of the calls made by one activation. -/
structure World where
  env : Nat → Env
  post : List Call → List MSG

/-- Where the `listen` loop stands. -/
inductive Status where
  | running
  | blocked
  | terminated (exit : Exit)
  | diverged
  deriving DecidableEq, Repr

/-- The state of the process while `listen` runs: the listener, the queue of
posted messages (oldest first), the outcomes of the dispatches made so far
(oldest first), and the status of the loop. -/
structure Process where
  wcl : WindowsClipboardListener
  queue : List MSG
  history : List Result
  status : Status
  deriving DecidableEq, Repr

/-- One iteration of the `for` loop of `listen`: `getMessage` into
`wcl.message` with both filter bounds `WM_CLIPBOARDUPDATE`, then
`dispatchMessage`, which runs the window procedure on the fields of the
message.  A retrieved message in that range is never `WM_QUIT`, so `newMessage`
is true whenever `getMessage` comes back. -/
def listenStep (fuel : Nat) (w : World) (p : Process) : Process :=
  match p.status with
  | .running =>
    match getMessage p.queue WM_CLIPBOARDUPDATE WM_CLIPBOARDUPDATE with
    | none => { p with status := .blocked }
    | some (m, q) =>
      let wcl : WindowsClipboardListener := { p.wcl with message := m }
      match wmClipboardUpdateHandler fuel (w.env p.history.length) wcl m.Hwnd m.Message m.WParam
          m.LParam with
      | none => { p with wcl := wcl, queue := q, status := .diverged }
      | some r =>
        { wcl := { wcl with copied := r.copied }
          queue := q ++ w.post r.calls
          history := p.history ++ [r]
          status := match r.exit with
            | .returned _ _ => .running
            | e => .terminated e }
  | _ => p

/-- Method `listen`, cut after `n` iterations of its loop. -/
def listen (fuel : Nat) (w : World) : Nat → Process → Process
  | 0, p => p
  | n + 1, p => listen fuel w n (listenStep fuel w p)

/-- The calls `tryOpenWinApiClipboard` makes when `OpenClipboard` fails `n`
times and then succeeds. -/
def retryCalls : Nat → List Call
  | 0 => [Call.openClipboard true]
  | n + 1 => Call.openClipboard false :: Call.closeClipboard :: retryCalls n

/-- The calls of `n` failed attempts to open the clipboard: each
`openClipboard` that fails is followed by one `closeClipboard`. -/
def failedAttempts : Nat → List Call
  | 0 => []
  | n + 1 => Call.openClipboard false :: Call.closeClipboard :: failedAttempts n

/-- The answers of `OpenClipboard` are: failure `n` times, then success. -/
def FirstSuccess (openClipboard : Nat → Bool) (n : Nat) : Prop :=
  (∀ i, i < n → openClipboard i = false) ∧ openClipboard n = true

instance (openClipboard : Nat → Bool) (n : Nat) : Decidable (FirstSuccess openClipboard n) := by
  unfold FirstSuccess
  infer_instance

/-- The capture and republish operations: `getClipboardData`,
`emptyClipboard`, `globalAlloc`, `moveMemory`, `setClipboardData`. -/
def Call.isCaptureRepublish : Call → Bool
  | .getClipboardData _ _ => true
  | .emptyClipboard => true
  | .globalAlloc _ _ _ => true
  | .moveMemory _ _ _ => true
  | .setClipboardData _ _ _ => true
  | _ => false

/-- An operation on shared memory: `globalLock`, `globalUnlock`, `globalAlloc`,
`moveMemory`, `globalFree`. -/
def Call.isMemory : Call → Bool
  | .globalLock _ _ => true
  | .globalUnlock _ => true
  | .globalAlloc _ _ _ => true
  | .moveMemory _ _ _ => true
  | .globalFree _ => true
  | _ => false

/-- A call of `globalFree`. -/
def Call.isFree : Call → Bool
  | .globalFree _ => true
  | _ => false

/-- A call of `openClipboard`, whatever it returned. -/
def Call.isOpen : Call → Bool
  | .openClipboard _ => true
  | _ => false

/-- An activation ran a capture and republish cycle (or the start of one). -/
def startsCycle (r : Result) : Bool := r.calls.any Call.isCaptureRepublish

/-- Number of `openClipboard` calls in a trace. -/
def attempts (calls : List Call) : Nat := calls.countP Call.isOpen

/-- Number of `openClipboard` calls that obtained the clipboard. -/
def acquires (calls : List Call) : Nat := calls.count (Call.openClipboard true)

/-- Number of `closeClipboard` calls in a trace. -/
def releases (calls : List Call) : Nat := calls.count Call.closeClipboard

/-- The environment assumption on notifications: `EmptyClipboard` posts one
`WM_CLIPBOARDUPDATE` with subtype 0, a `SetClipboardData` that succeeds posts
one with subtype 4, and no other call of the handler posts anything. -/
def notificationOf (hwnd : Nat) : Call → List MSG
  | .emptyClipboard => [⟨hwnd, WM_CLIPBOARDUPDATE, 0x0, 0, 0, ⟨0, 0⟩⟩]
  | .setClipboardData _ _ ret =>
    if ret = 0 then [] else [⟨hwnd, WM_CLIPBOARDUPDATE, 0x4, 0, 0, ⟨0, 0⟩⟩]
  | _ => []

/-- The notifications posted for a whole call trace under that assumption. -/
def selfNotifications (hwnd : Nat) : List Call → List MSG
  | [] => []
  | c :: cs => notificationOf hwnd c ++ selfNotifications hwnd cs

/-- The calls of a capture and republish cycle after the clipboard has been
opened and before it is closed, for captured code units `units` (terminator
included): the success path of the handler. -/
def cycleCalls (env : Env) (units : List Nat) : List Call :=
  [Call.getClipboardData CF_UNICODETEXT env.getClipboardData,
   Call.globalLock env.getClipboardData env.lockData,
   Call.globalUnlock env.getClipboardData,
   Call.emptyClipboard,
   Call.globalAlloc GMEM_MOVEABLE (2 * units.length) env.globalAlloc,
   Call.globalLock env.globalAlloc env.lockMem,
   Call.moveMemory env.lockMem units (2 * units.length),
   Call.globalUnlock env.globalAlloc,
   Call.setClipboardData CF_UNICODETEXT env.globalAlloc env.setClipboardData]

/-- The first `2^20` words at the locked source pointer, up to the first NUL:
the code units the handler captures. -/
def captured (env : Env) : List Nat := syscall.untilNUL (env.memory.take (1 <<< 20))

/-! ### Concrete inputs -/

/-- A clipboard-update message with subtype `w`, addressed to window 1. -/
def msgOf (w : Nat) : MSG := ⟨1, WM_CLIPBOARDUPDATE, w, 0, 0, ⟨0, 0⟩⟩

/-- A listener whose retrieved message has subtype `w` and that has captured
nothing yet. -/
def wclOf (w : Nat) : WindowsClipboardListener := ⟨1, msgOf w, []⟩

/-- An environment where the clipboard is free at once, holds the text "hi"
(followed by a NUL and one more word) and every call succeeds. -/
def envText : Env :=
  { openClipboard := fun _ => true
    getClipboardData := 7
    lockData := 100
    memory := [104, 105, 0, 9]
    globalAlloc := 8
    lockMem := 200
    setClipboardData := 8
    defWindowProc := 0 }

/-- As `envText`, but the first `OpenClipboard` fails. -/
def envBusy : Env := { envText with openClipboard := fun k => decide (1 ≤ k) }

/-- As `envText`, but `SetClipboardData` returns zero. -/
def envFatal : Env := { envText with setClipboardData := 0 }

/-- As `envText`, but the clipboard holds no Unicode text. -/
def envNoData : Env := { envText with getClipboardData := 0 }

/-- As `envNoData`, but the first `OpenClipboard` fails. -/
def envNoDataBusy : Env := { envNoData with openClipboard := fun k => decide (1 ≤ k) }

end ClipListener

/-! ## Reference definitions -/

namespace Reference

/-- The UTF-16 encoding form of one Unicode scalar value (Unicode Standard,
section 3.9, definition D91): one code unit below U+10000, else a surrogate
pair. -/
def utf16OfChar (c : Char) : List Nat :=
  if c.toNat < 0x10000 then [c.toNat]
  else [0xD800 + (c.toNat - 0x10000) / 1024, 0xDC00 + (c.toNat - 0x10000) % 1024]

/-- The UTF-16 encoding form of a text. -/
def utf16Encode : List Char → List Nat
  | [] => []
  | c :: cs => utf16OfChar c ++ utf16Encode cs

/-- A text stored as NUL-terminated UTF-16. -/
def nulTerminated (x : List Char) : List Nat := utf16Encode x ++ [0]

end Reference

namespace ClipListener

/-- A text of `2^20 + 1` letters `a`. -/
def longText : List Char := List.replicate 1048577 (Char.ofNat 97)

/-- As `envText`, but the clipboard holds `longText`, NUL-terminated. -/
def envLong : Env := { envText with memory := Reference.nulTerminated longText }

/-- The text of three characters: `a`, U+0000, `b`. -/
def nulText : List Char := [Char.ofNat 97, Char.ofNat 0, Char.ofNat 98]

/-- As `envText`, but the clipboard memory holds the encoding of `nulText`
followed by a NUL. -/
def envNul : Env := { envText with memory := Reference.nulTerminated nulText }

/-- The text of two characters U+00E9 and U+1F600. -/
def shortText : List Char := [Char.ofNat 0xE9, Char.ofNat 0x1F600]

/-- As `envBusy`, but the clipboard holds `shortText`, NUL-terminated, followed
by two more words. -/
def envShort : Env := { envBusy with memory := Reference.nulTerminated shortText ++ [7, 0xD800] }

/-- A world in which the first dispatch finds the text of `envBusy` on a
clipboard that is busy once, later dispatches find `envText`, and notifications
are posted to window 1 as the environment assumption says. -/
def worldText : World :=
  { env := fun k => if k = 0 then envBusy else envText
    post := selfNotifications 1 }

end ClipListener

namespace Codec

/-- The bytes `utf8.AppendRune` writes, in arithmetic form. -/
def runeBytes (r : Nat) : List Nat :=
  if r ≤ 0x7F then [r]
  else if r ≤ 0x7FF then [0xC0 + r / 64, 0x80 + r % 64]
  else if r > 0x10FFFF ∨ (0xD800 ≤ r ∧ r ≤ 0xDFFF) then [0xEF, 0xBF, 0xBD]
  else if r ≤ 0xFFFF then [0xE0 + r / 4096, 0x80 + r / 64 % 64, 0x80 + r % 64]
  else [0xF0 + r / 262144, 0x80 + r / 4096 % 64, 0x80 + r / 64 % 64, 0x80 + r % 64]

/-- The code units `utf16.AppendRune` writes, in arithmetic form. -/
def runeUnits (r : Nat) : List Nat :=
  if r < 0xD800 ∨ (0xE000 ≤ r ∧ r < 0x10000) then [r]
  else if 0x10000 ≤ r ∧ r ≤ 0x10FFFF then
    [0xD800 + (r - 0x10000) / 1024, 0xDC00 + (r - 0x10000) % 1024]
  else [0xFFFD]

end Codec

/-! ## Arithmetic of the bit operations -/

namespace Codec

theorem or_eq_add_of_dvd (k a b : Nat) (ha : a % 2 ^ k = 0) (hb : b < 2 ^ k) :
    a ||| b = a + b := by
  have h := Nat.mul_add_lt_is_or hb (a / 2 ^ k)
  have h2 : 2 ^ k * (a / 2 ^ k) = a := by
    have := Nat.div_add_mod a (2 ^ k)
    omega
  rw [h2] at h
  exact h.symm

theorem and_3F (x : Nat) : x &&& 0x3F = x % 64 := Nat.and_pow_two_sub_one_eq_mod x 6
theorem and_1F (x : Nat) : x &&& 0x1F = x % 32 := Nat.and_pow_two_sub_one_eq_mod x 5
theorem and_0F (x : Nat) : x &&& 0x0F = x % 16 := Nat.and_pow_two_sub_one_eq_mod x 4
theorem and_07 (x : Nat) : x &&& 0x07 = x % 8 := Nat.and_pow_two_sub_one_eq_mod x 3
theorem and_01 (x : Nat) : x &&& 1 = x % 2 := Nat.and_pow_two_sub_one_eq_mod x 1
theorem and_3FF (x : Nat) : x &&& 0x3ff = x % 1024 := Nat.and_pow_two_sub_one_eq_mod x 10
theorem shr_4 (x : Nat) : x >>> 4 = x / 16 := Nat.shiftRight_eq_div_pow x 4
theorem shr_6 (x : Nat) : x >>> 6 = x / 64 := Nat.shiftRight_eq_div_pow x 6
theorem shr_10 (x : Nat) : x >>> 10 = x / 1024 := Nat.shiftRight_eq_div_pow x 10
theorem shr_12 (x : Nat) : x >>> 12 = x / 4096 := Nat.shiftRight_eq_div_pow x 12
theorem shr_18 (x : Nat) : x >>> 18 = x / 262144 := Nat.shiftRight_eq_div_pow x 18
theorem shl_6 (x : Nat) : x <<< 6 = x * 64 := Nat.shiftLeft_eq x 6
theorem shl_10 (x : Nat) : x <<< 10 = x * 1024 := Nat.shiftLeft_eq x 10
theorem shl_12 (x : Nat) : x <<< 12 = x * 4096 := Nat.shiftLeft_eq x 12
theorem shl_18 (x : Nat) : x <<< 18 = x * 262144 := Nat.shiftLeft_eq x 18

/-- A continuation byte: the marker `tx` with six payload bits. -/
theorem cont_byte (x : Nat) : utf8.tx ||| (utf8.byte x &&& utf8.maskx) = 0x80 + x % 64 := by
  have h : utf8.byte x &&& utf8.maskx = x % 64 := by
    rw [and_3F]; unfold utf8.byte; omega
  rw [h]
  exact or_eq_add_of_dvd 6 _ _ (by norm_num) (by omega)

theorem lead2_byte (r : Nat) (h : r ≤ 0x7FF) : utf8.t2 ||| utf8.byte (r >>> 6) = 0xC0 + r / 64 := by
  have h1 : utf8.byte (r >>> 6) = r / 64 := by
    rw [shr_6]; unfold utf8.byte; omega
  rw [h1]
  exact or_eq_add_of_dvd 5 _ _ (by norm_num) (by omega)

theorem lead3_byte (r : Nat) (h : r ≤ 0xFFFF) : utf8.t3 ||| utf8.byte (r >>> 12) = 0xE0 + r / 4096 := by
  have h1 : utf8.byte (r >>> 12) = r / 4096 := by
    rw [shr_12]; unfold utf8.byte; omega
  rw [h1]
  exact or_eq_add_of_dvd 4 _ _ (by norm_num) (by omega)

theorem lead4_byte (r : Nat) (h : r ≤ 0x10FFFF) :
    utf8.t4 ||| utf8.byte (r >>> 18) = 0xF0 + r / 262144 := by
  have h1 : utf8.byte (r >>> 18) = r / 262144 := by
    rw [shr_18]; unfold utf8.byte; omega
  rw [h1]
  exact or_eq_add_of_dvd 3 _ _ (by norm_num) (by omega)

theorem AppendRune_eq (p : List Nat) (r : Nat) : utf8.AppendRune p r = p ++ runeBytes r := by
  unfold utf8.AppendRune utf8.appendRuneNonASCII runeBytes
  by_cases h1 : r ≤ 0x7F
  · have : utf8.byte r = r := by unfold utf8.byte; omega
    simp [h1, this]
  · by_cases h2 : r ≤ 0x7FF
    · simp only [h1, h2, if_true, if_false, utf8.rune1Max, utf8.rune2Max]
      rw [lead2_byte r h2, cont_byte]
    · by_cases h3 : r > 0x10FFFF ∨ (0xD800 ≤ r ∧ r ≤ 0xDFFF)
      · simp only [h1, h2, h3, if_true, if_false, utf8.rune1Max, utf8.rune2Max, utf8.MaxRune,
          utf8.surrogateMin, utf8.surrogateMax]
        rw [lead3_byte _ (by norm_num), cont_byte, cont_byte, shr_6]
        rfl
      · by_cases h4 : r ≤ 0xFFFF
        · simp only [h1, h2, h3, h4, if_true, if_false, utf8.rune1Max, utf8.rune2Max,
            utf8.MaxRune, utf8.surrogateMin, utf8.surrogateMax, utf8.rune3Max]
          rw [lead3_byte r h4, cont_byte, cont_byte, shr_6]
        · simp only [h1, h2, h3, h4, if_true, if_false, utf8.rune1Max, utf8.rune2Max,
            utf8.MaxRune, utf8.surrogateMin, utf8.surrogateMax, utf8.rune3Max]
          rw [lead4_byte r (by omega), cont_byte, cont_byte, cont_byte, shr_6, shr_12]

theorem join2 (a b : Nat) :
    ((a &&& utf8.mask2) <<< 6) ||| (b &&& utf8.maskx) = a % 32 * 64 + b % 64 := by
  rw [and_1F, and_3F, shl_6]
  exact or_eq_add_of_dvd 6 _ _ (by omega) (by omega)

theorem join3 (a b c : Nat) :
    ((a &&& utf8.mask3) <<< 12) ||| ((b &&& utf8.maskx) <<< 6) ||| (c &&& utf8.maskx)
      = a % 16 * 4096 + b % 64 * 64 + c % 64 := by
  rw [and_0F, and_3F, and_3F, shl_6, shl_12]
  rw [or_eq_add_of_dvd 12 (a % 16 * 4096) (b % 64 * 64) (by omega) (by omega)]
  exact or_eq_add_of_dvd 6 _ _ (by omega) (by omega)

theorem join4 (a b c d : Nat) :
    ((a &&& utf8.mask4) <<< 18) ||| ((b &&& utf8.maskx) <<< 12) ||| ((c &&& utf8.maskx) <<< 6)
      ||| (d &&& utf8.maskx) = a % 8 * 262144 + b % 64 * 4096 + c % 64 * 64 + d % 64 := by
  rw [and_07, and_3F, and_3F, and_3F, shl_6, shl_12, shl_18]
  rw [or_eq_add_of_dvd 18 (a % 8 * 262144) (b % 64 * 4096) (by omega) (by omega)]
  rw [or_eq_add_of_dvd 12 (a % 8 * 262144 + b % 64 * 4096) (c % 64 * 64) (by omega) (by omega)]
  exact or_eq_add_of_dvd 6 _ _ (by omega) (by omega)

theorem join4b (a b c d : Nat) :
    ((a % 8) <<< 18) ||| ((b &&& utf8.maskx) <<< 12) ||| ((c &&& utf8.maskx) <<< 6)
      ||| (d &&& utf8.maskx) = a % 8 * 262144 + b % 64 * 4096 + c % 64 * 64 + d % 64 := by
  rw [← join4, and_07]

/-- The table `first` by class of lead byte. -/
theorem first_cases (b : Nat) :
    (b < 0x80 ∧ utf8.first b = 0xF0) ∨
    (((0x80 ≤ b ∧ b < 0xC2) ∨ 0xF5 ≤ b) ∧ utf8.first b = 0xF1) ∨
    ((0xC2 ≤ b ∧ b < 0xE0) ∧ utf8.first b = 0x02) ∨
    (b = 0xE0 ∧ utf8.first b = 0x13) ∨
    (((0xE1 ≤ b ∧ b < 0xED) ∨ (0xEE ≤ b ∧ b < 0xF0)) ∧ utf8.first b = 0x03) ∨
    (b = 0xED ∧ utf8.first b = 0x23) ∨
    (b = 0xF0 ∧ utf8.first b = 0x34) ∨
    ((0xF1 ≤ b ∧ b < 0xF4) ∧ utf8.first b = 0x04) ∨
    (b = 0xF4 ∧ utf8.first b = 0x44) := by
  unfold utf8.first
  split_ifs <;> simp <;> omega

theorem decode1 (b0 : Nat) (t : List Nat) (h : b0 < 0x80) :
    utf8.DecodeRuneInString (b0 :: t) = (b0, 1) := by
  simp [utf8.DecodeRuneInString, utf8.first, h]

theorem decode2 (b0 b1 : Nat) (t : List Nat) (h0 : 0xC2 ≤ b0 ∧ b0 ≤ 0xDF)
    (h1 : 0x80 ≤ b1 ∧ b1 ≤ 0xBF) :
    utf8.DecodeRuneInString (b0 :: b1 :: t) = (b0 % 32 * 64 + b1 % 64, 2) := by
  have hf : utf8.first b0 = 0x02 := by
    rcases first_cases b0 with h | h | h | h | h | h | h | h | h <;> omega
  unfold utf8.DecodeRuneInString
  simp only [hf, join2, and_07, shr_4, utf8.acceptRanges, List.length_cons, List.getD_cons_zero,
    List.getD_cons_succ, utf8.as, utf8.locb, utf8.hicb]
  norm_num
  split_ifs <;> first | rfl | omega

theorem decode3 (b0 b1 b2 : Nat) (t : List Nat) (h0 : 0xE0 ≤ b0 ∧ b0 ≤ 0xEF)
    (h1 : 0x80 ≤ b1 ∧ b1 ≤ 0xBF) (hE0 : b0 = 0xE0 → 0xA0 ≤ b1) (hED : b0 = 0xED → b1 ≤ 0x9F)
    (h2 : 0x80 ≤ b2 ∧ b2 ≤ 0xBF) :
    utf8.DecodeRuneInString (b0 :: b1 :: b2 :: t)
      = (b0 % 16 * 4096 + b1 % 64 * 64 + b2 % 64, 3) := by
  unfold utf8.DecodeRuneInString
  rcases first_cases b0 with h | h | h | h | h | h | h | h | h <;>
    first
    | omega
    | (obtain ⟨ha, hf⟩ := h
       simp only [hf, join3, and_07, shr_4, utf8.acceptRanges, List.length_cons,
         List.getD_cons_zero, List.getD_cons_succ, utf8.as, utf8.locb, utf8.hicb]
       norm_num
       split_ifs <;> first | rfl | omega)

theorem decode4 (b0 b1 b2 b3 : Nat) (t : List Nat) (h0 : 0xF0 ≤ b0 ∧ b0 ≤ 0xF4)
    (h1 : 0x80 ≤ b1 ∧ b1 ≤ 0xBF) (hF0 : b0 = 0xF0 → 0x90 ≤ b1) (hF4 : b0 = 0xF4 → b1 ≤ 0x8F)
    (h2 : 0x80 ≤ b2 ∧ b2 ≤ 0xBF) (h3 : 0x80 ≤ b3 ∧ b3 ≤ 0xBF) :
    utf8.DecodeRuneInString (b0 :: b1 :: b2 :: b3 :: t)
      = (b0 % 8 * 262144 + b1 % 64 * 4096 + b2 % 64 * 64 + b3 % 64, 4) := by
  unfold utf8.DecodeRuneInString
  rcases first_cases b0 with h | h | h | h | h | h | h | h | h <;>
    first
    | omega
    | (obtain ⟨ha, hf⟩ := h
       simp only [hf, join4b, and_07, shr_4, utf8.acceptRanges, List.length_cons,
         List.getD_cons_zero, List.getD_cons_succ, utf8.as, utf8.locb, utf8.hicb]
       norm_num
       split_ifs <;> first | rfl | omega)

/-- The three-byte form of a surrogate is not valid UTF-8: the decoder reports
`RuneError` with width one. -/
theorem decodeSurrogate (b1 b2 : Nat) (t : List Nat) (h1 : 0xA0 ≤ b1) :
    utf8.DecodeRuneInString (0xED :: b1 :: b2 :: t) = (utf8.RuneError, 1) := by
  unfold utf8.DecodeRuneInString
  have hf : utf8.first 0xED = 0x23 := by decide
  simp only [hf, and_07, shr_4, utf8.acceptRanges, List.length_cons,
    List.getD_cons_zero, List.getD_cons_succ, utf8.as, utf8.locb, utf8.hicb]
  norm_num
  intro h
  omega

theorem decode_width_pos (s : List Nat) (h : s ≠ []) : 1 ≤ (utf8.DecodeRuneInString s).2 := by
  unfold utf8.DecodeRuneInString
  have hl : ¬ s.length < 1 := by
    cases s with
    | nil => exact absurd rfl h
    | cons a t => simp
  simp only [hl, if_false]
  split_ifs <;> simp

theorem utf16_AppendRune_eq (a : List Nat) (r : Nat) : utf16.AppendRune a r = a ++ runeUnits r := by
  unfold utf16.AppendRune runeUnits utf16.EncodeRune
  by_cases h1 : r < 0xD800 ∨ (0xE000 ≤ r ∧ r < 0x10000)
  · have : utf16.uint16 r = r := by unfold utf16.uint16; omega
    simp only [h1, if_true, this, utf16.surr1, utf16.surr3, utf16.surrSelf]
  · by_cases h2 : 0x10000 ≤ r ∧ r ≤ 0x10FFFF
    · have h3 : ¬ (r < 0x10000 ∨ r > 0x10FFFF) := by omega
      simp only [h1, h2, h3, if_true, if_false, utf16.surr1, utf16.surr2, utf16.surr3,
        utf16.surrSelf, utf16.maxRune, and_self, and_3FF, shr_10]
      unfold utf16.uint16
      have e1 : (0xD800 + (r - 0x10000) / 1024 % 1024) % 65536 = 0xD800 + (r - 0x10000) / 1024 := by
        omega
      have e2 : (0xDC00 + (r - 0x10000) % 1024) % 65536 = 0xDC00 + (r - 0x10000) % 1024 := by
        omega
      rw [e1, e2]
    · simp only [h1, h2, if_false, utf16.surr1, utf16.surr3, utf16.surrSelf, utf16.maxRune]

theorem utf16_DecodeRune_eq (r1 r2 : Nat) (h : 0xD800 ≤ r1 ∧ r1 < 0xDC00 ∧ 0xDC00 ≤ r2 ∧ r2 < 0xE000) :
    utf16.DecodeRune r1 r2 = (r1 - 0xD800) * 1024 + (r2 - 0xDC00) + 0x10000 := by
  unfold utf16.DecodeRune
  simp only [utf16.surr1, utf16.surr2, utf16.surr3, utf16.surrSelf, h, and_self, if_true, shl_10]
  rw [or_eq_add_of_dvd 10 _ _ (by omega) (by omega)]

/-- One more unit of fuel than the length of the string changes nothing. -/
theorem encodeWTF16Loop_succ (fuel : Nat) : ∀ (s buf : List Nat), s.length ≤ fuel →
    syscall.encodeWTF16Loop (fuel + 1) s buf = syscall.encodeWTF16Loop fuel s buf := by
  induction fuel with
  | zero =>
    intro s buf h
    have : s = [] := List.length_eq_zero.mp (by omega)
    subst this
    simp [syscall.encodeWTF16Loop]
  | succ n ih =>
    intro s buf h
    rw [syscall.encodeWTF16Loop]
    conv_rhs => rw [syscall.encodeWTF16Loop]
    by_cases hs : s.length = 0
    · simp [hs]
    · have hne : s ≠ [] := fun e => hs (by simp [e])
      have hw := decode_width_pos s hne
      simp only [hs, if_false]
      split_ifs
      · exact ih _ _ (by simp; omega)
      · exact ih _ _ (by simp; omega)

theorem encodeWTF16Loop_fuel (k : Nat) (s buf : List Nat) :
    syscall.encodeWTF16Loop (s.length + k) s buf = syscall.encodeWTF16Loop s.length s buf := by
  induction k with
  | zero => rfl
  | succ n ih =>
    rw [← ih, ← Nat.add_assoc]
    exact encodeWTF16Loop_succ _ _ _ (by omega)

theorem encodeWTF16Loop_buf (fuel : Nat) : ∀ (s buf : List Nat),
    syscall.encodeWTF16Loop fuel s buf = buf ++ syscall.encodeWTF16Loop fuel s [] := by
  induction fuel with
  | zero => intro s buf; simp [syscall.encodeWTF16Loop]
  | succ n ih =>
    intro s buf
    rw [syscall.encodeWTF16Loop]
    conv_rhs => rw [syscall.encodeWTF16Loop]
    by_cases hs : s.length = 0
    · simp [hs]
    · simp only [hs, if_false]
      split_ifs
      · rw [ih _ (buf ++ _), ih _ ([] ++ _)]; simp
      · rw [ih _ (utf16.AppendRune buf _), ih _ (utf16.AppendRune [] _), utf16_AppendRune_eq buf,
          utf16_AppendRune_eq []]
        simp

/-- One iteration of `encodeWTF16` on a string that starts with the bytes `c` of
a rune `r` that is not taken for a surrogate. -/
theorem encodeWTF16_rune (c t : List Nat) (r : Nat) (hc : c ≠ [])
    (hd : utf8.DecodeRuneInString (c ++ t) = (r, c.length))
    (hn : r ≠ 0xFFFD ∨ (c ++ t).getD 0 0 ≠ 0xED) :
    syscall.encodeWTF16 (c ++ t) [] = runeUnits r ++ syscall.encodeWTF16 t [] := by
  unfold syscall.encodeWTF16
  have hlen : (c ++ t).length = (t.length + (c.length - 1)) + 1 := by
    have : 1 ≤ c.length := List.length_pos.mpr hc
    simp; omega
  rw [hlen, syscall.encodeWTF16Loop]
  have h0 : ¬ ((c ++ t).length = 0) := by omega
  have hcond : ¬ ((utf8.DecodeRuneInString (c ++ t)).1 = utf8.RuneError ∧ (c ++ t).length ≥ 3 ∧
      (c ++ t).getD 0 0 = 0xED ∧ 0xA0 ≤ (c ++ t).getD 1 0 ∧ (c ++ t).getD 1 0 ≤ 0xBF ∧
      0x80 ≤ (c ++ t).getD 2 0 ∧ (c ++ t).getD 2 0 ≤ 0xBF) := by
    rw [hd]
    rintro ⟨h1, -, h2, -⟩
    rcases hn with hn | hn
    · exact hn h1
    · exact hn h2
  rw [if_neg h0]
  simp only [hcond, if_false]
  rw [hd]
  simp only [List.drop_left]
  rw [encodeWTF16Loop_fuel, encodeWTF16Loop_buf, utf16_AppendRune_eq]
  simp

/-- One iteration of `encodeWTF16` on the three-byte form of a surrogate. -/
theorem encodeWTF16_surrogate (b1 b2 : Nat) (t : List Nat) (h1 : 0xA0 ≤ b1 ∧ b1 ≤ 0xBF)
    (h2 : 0x80 ≤ b2 ∧ b2 ≤ 0xBF) :
    syscall.encodeWTF16 (0xED :: b1 :: b2 :: t) []
      = [0xD000 + b1 % 64 * 64 + b2 % 64] ++ syscall.encodeWTF16 t [] := by
  unfold syscall.encodeWTF16
  have hlen : (0xED :: b1 :: b2 :: t).length = (t.length + 2) + 1 := by simp
  rw [hlen, syscall.encodeWTF16Loop]
  rw [decodeSurrogate b1 b2 t h1.1]
  have hcond : ((utf8.RuneError, 1).1 = utf8.RuneError ∧ (0xED :: b1 :: b2 :: t).length ≥ 3 ∧
      (0xED :: b1 :: b2 :: t).getD 0 0 = 0xED ∧ 0xA0 ≤ (0xED :: b1 :: b2 :: t).getD 1 0 ∧
      (0xED :: b1 :: b2 :: t).getD 1 0 ≤ 0xBF ∧
      0x80 ≤ (0xED :: b1 :: b2 :: t).getD 2 0 ∧ (0xED :: b1 :: b2 :: t).getD 2 0 ≤ 0xBF) := by
    simp
    omega
  rw [if_neg (by simp), if_pos hcond]
  simp only [List.getD_cons_zero, List.getD_cons_succ, List.drop_succ_cons, List.drop_zero]
  rw [encodeWTF16Loop_fuel, encodeWTF16Loop_buf, and_3F, and_3F, and_0F, shl_6, shl_12]
  have : utf16.uint16 (0xED % 16 * 4096 + b1 % 64 * 64 + b2 % 64) = 0xD000 + b1 % 64 * 64 + b2 % 64 := by
    unfold utf16.uint16; omega
  rw [this]
  simp

theorem decodeWTF16_normal (r : Nat) (rest buf : List Nat) (h : r < 0xD800 ∨ 0xE000 ≤ r) :
    syscall.decodeWTF16 (r :: rest) buf = syscall.decodeWTF16 rest (buf ++ runeBytes r) := by
  cases rest with
  | nil =>
    rw [syscall.decodeWTF16, syscall.decodeWTF16]
    simp only [utf16.surr1, utf16.surr3, h, if_true, AppendRune_eq]
  | cons r2 t =>
    rw [syscall.decodeWTF16]
    simp only [utf16.surr1, utf16.surr3, h, if_true, AppendRune_eq]

theorem decodeWTF16_pair (r1 r2 : Nat) (rest buf : List Nat)
    (h : 0xD800 ≤ r1 ∧ r1 < 0xDC00 ∧ 0xDC00 ≤ r2 ∧ r2 < 0xE000) :
    syscall.decodeWTF16 (r1 :: r2 :: rest) buf
      = syscall.decodeWTF16 rest (buf ++ runeBytes ((r1 - 0xD800) * 1024 + (r2 - 0xDC00) + 0x10000)) := by
  rw [syscall.decodeWTF16]
  have h1 : ¬ (r1 < 0xD800 ∨ 0xE000 ≤ r1) := by omega
  simp only [utf16.surr1, utf16.surr2, utf16.surr3, h1, h, and_self, if_true, if_false,
    AppendRune_eq, utf16_DecodeRune_eq r1 r2 h]

theorem decodeWTF16_lone (r : Nat) (rest buf : List Nat) (hr : 0xD800 ≤ r ∧ r < 0xE000)
    (hl : ¬ (r < 0xDC00 ∧ 0xDC00 ≤ rest.headD 0 ∧ rest.headD 0 < 0xE000)) :
    syscall.decodeWTF16 (r :: rest) buf
      = syscall.decodeWTF16 rest (buf ++ [0xED, 0x80 + r / 64 % 64, 0x80 + r % 64]) := by
  have h1 : ¬ (r < 0xD800 ∨ 0xE000 ≤ r) := by omega
  have h2 : ¬ (r > 0x10FFFF) := by omega
  have e : 0xE0 + r / 4096 = 0xED := by omega
  cases rest with
  | nil =>
    rw [syscall.decodeWTF16, syscall.decodeWTF16]
    simp only [utf16.surr1, utf16.surr3, utf8.MaxRune, h1, h2, if_false, cont_byte,
      lead3_byte r (by omega), shr_6, e]
  | cons r2 t =>
    rw [syscall.decodeWTF16]
    have h3 : ¬ (0xD800 ≤ r ∧ r < 0xDC00 ∧ 0xDC00 ≤ r2 ∧ r2 < 0xE000) := by
      simp only [List.headD_cons] at hl
      omega
    simp only [utf16.surr1, utf16.surr2, utf16.surr3, utf8.MaxRune, h1, h2, h3, if_false,
      cont_byte, lead3_byte r (by omega), shr_6, e]

theorem decodeWTF16_buf (n : Nat) : ∀ (s buf : List Nat), s.length ≤ n →
    syscall.decodeWTF16 s buf = buf ++ syscall.decodeWTF16 s [] := by
  induction n with
  | zero =>
    intro s buf h
    have : s = [] := List.length_eq_zero.mp (by omega)
    subst this
    simp [syscall.decodeWTF16]
  | succ n ih =>
    intro s buf h
    cases s with
    | nil => simp [syscall.decodeWTF16]
    | cons r rest =>
      have hrest : rest.length ≤ n := by simpa using h
      by_cases h1 : r < 0xD800 ∨ 0xE000 ≤ r
      · rw [decodeWTF16_normal r rest buf h1, decodeWTF16_normal r rest [] h1, ih rest _ hrest,
          ih rest ([] ++ _) hrest]
        simp
      · by_cases h2 : r < 0xDC00 ∧ 0xDC00 ≤ rest.headD 0 ∧ rest.headD 0 < 0xE000
        · cases rest with
          | nil =>
            simp only [List.headD_nil] at h2
            omega
          | cons r2 t =>
            simp only [List.headD_cons] at h2
            have ht : t.length ≤ n := by simp at hrest; omega
            have hp : 0xD800 ≤ r ∧ r < 0xDC00 ∧ 0xDC00 ≤ r2 ∧ r2 < 0xE000 := by omega
            have key : ∀ X : List Nat,
                syscall.decodeWTF16 (r :: r2 :: t) buf = syscall.decodeWTF16 t (buf ++ X) →
                syscall.decodeWTF16 (r :: r2 :: t) [] = syscall.decodeWTF16 t ([] ++ X) →
                syscall.decodeWTF16 (r :: r2 :: t) buf
                  = buf ++ syscall.decodeWTF16 (r :: r2 :: t) [] := by
              intro X e1 e2
              rw [e1, e2, ih t (buf ++ X) ht, ih t ([] ++ X) ht]
              simp only [List.append_assoc, List.nil_append]
            exact key _ (decodeWTF16_pair r r2 t buf hp) (decodeWTF16_pair r r2 t [] hp)
        · rw [decodeWTF16_lone r rest buf (by omega) h2, decodeWTF16_lone r rest [] (by omega) h2,
            ih rest _ hrest, ih rest ([] ++ _) hrest]
          simp

theorem decodeWTF16_append (s buf : List Nat) :
    syscall.decodeWTF16 s buf = buf ++ syscall.decodeWTF16 s [] :=
  decodeWTF16_buf s.length s buf (Nat.le_refl _)

/-- Reading back the bytes of a rune of the Basic Multilingual Plane that is
not a surrogate gives the one code unit it came from. -/
theorem encodeWTF16_runeBytes (r : Nat) (t : List Nat)
    (hr : r < 0xD800 ∨ (0xE000 ≤ r ∧ r < 0x10000)) :
    syscall.encodeWTF16 (runeBytes r ++ t) [] = [r] ++ syscall.encodeWTF16 t [] := by
  have hu : runeUnits r = [r] := by
    unfold runeUnits
    rw [if_pos hr]
  rw [← hu]
  unfold runeBytes
  by_cases h1 : r ≤ 0x7F
  · rw [if_pos h1]
    refine encodeWTF16_rune [r] t r (by simp) ?_ (Or.inl (by omega))
    exact decode1 r t (by omega)
  · rw [if_neg h1]
    by_cases h2 : r ≤ 0x7FF
    · rw [if_pos h2]
      refine encodeWTF16_rune [0xC0 + r / 64, 0x80 + r % 64] t r (by simp) ?_ (Or.inl (by omega))
      have hd := decode2 (0xC0 + r / 64) (0x80 + r % 64) t (by omega) (by omega)
      have e : (0xC0 + r / 64) % 32 * 64 + (0x80 + r % 64) % 64 = r := by omega
      rw [e] at hd
      exact hd
    · rw [if_neg h2, if_neg (by omega), if_pos (by omega)]
      refine encodeWTF16_rune [0xE0 + r / 4096, 0x80 + r / 64 % 64, 0x80 + r % 64] t r (by simp) ?_
        ?_
      · have hd := decode3 (0xE0 + r / 4096) (0x80 + r / 64 % 64) (0x80 + r % 64) t (by omega)
          (by omega) (by omega) (by omega) (by omega)
        have e : (0xE0 + r / 4096) % 16 * 4096 + (0x80 + r / 64 % 64) % 64 * 64
            + (0x80 + r % 64) % 64 = r := by omega
        rw [e] at hd
        exact hd
      · by_cases h3 : r = 0xFFFD
        · right
          subst h3
          simp
        · exact Or.inl h3

/-- Reading back the four bytes of the rune of a surrogate pair gives the two
surrogates. -/
theorem encodeWTF16_pairBytes (r1 r2 : Nat) (t : List Nat)
    (h : 0xD800 ≤ r1 ∧ r1 < 0xDC00 ∧ 0xDC00 ≤ r2 ∧ r2 < 0xE000) :
    syscall.encodeWTF16 (runeBytes ((r1 - 0xD800) * 1024 + (r2 - 0xDC00) + 0x10000) ++ t) []
      = [r1, r2] ++ syscall.encodeWTF16 t [] := by
  have key : ∀ R : Nat, R = (r1 - 0xD800) * 1024 + (r2 - 0xDC00) + 0x10000 →
      syscall.encodeWTF16 (runeBytes R ++ t) [] = [r1, r2] ++ syscall.encodeWTF16 t [] := by
    intro R hR
    have hR1 : 0x10000 ≤ R ∧ R ≤ 0x10FFFF := by omega
    have hu : runeUnits R = [r1, r2] := by
      unfold runeUnits
      rw [if_neg (by omega), if_pos hR1]
      have e1 : 0xD800 + (R - 0x10000) / 1024 = r1 := by omega
      have e2 : 0xDC00 + (R - 0x10000) % 1024 = r2 := by omega
      rw [e1, e2]
    rw [← hu]
    unfold runeBytes
    rw [if_neg (by omega), if_neg (by omega), if_neg (by omega), if_neg (by omega)]
    refine encodeWTF16_rune
      [0xF0 + R / 262144, 0x80 + R / 4096 % 64, 0x80 + R / 64 % 64, 0x80 + R % 64] t R (by simp)
      ?_ (Or.inl (by omega))
    have hd := decode4 (0xF0 + R / 262144) (0x80 + R / 4096 % 64) (0x80 + R / 64 % 64)
      (0x80 + R % 64) t (by omega) (by omega) (by omega) (by omega) (by omega) (by omega)
    have e : (0xF0 + R / 262144) % 8 * 262144 + (0x80 + R / 4096 % 64) % 64 * 4096
        + (0x80 + R / 64 % 64) % 64 * 64 + (0x80 + R % 64) % 64 = R := by omega
    rw [e] at hd
    exact hd
  exact key _ rfl

/-- Round trip of the two WTF-8 helpers: every sequence of 16-bit code units,
well-formed or not, is read back unchanged. -/
theorem encodeWTF16_decodeWTF16 (n : Nat) : ∀ s : List Nat, s.length ≤ n →
    (∀ u ∈ s, u < 65536) → syscall.encodeWTF16 (syscall.decodeWTF16 s []) [] = s := by
  induction n with
  | zero =>
    intro s h _
    have : s = [] := List.length_eq_zero.mp (by omega)
    subst this
    rfl
  | succ n ih =>
    intro s h hb
    cases s with
    | nil => rfl
    | cons r rest =>
      have hrest : rest.length ≤ n := by simpa using h
      have hbr : r < 65536 := hb r (by simp)
      have hbrest : ∀ u ∈ rest, u < 65536 := fun u hu => hb u (by simp [hu])
      by_cases h1 : r < 0xD800 ∨ 0xE000 ≤ r
      · rw [decodeWTF16_normal r rest [] h1, decodeWTF16_append, List.nil_append,
          encodeWTF16_runeBytes r _ (by omega), ih rest hrest hbrest]
        rfl
      · by_cases h2 : r < 0xDC00 ∧ 0xDC00 ≤ rest.headD 0 ∧ rest.headD 0 < 0xE000
        · cases rest with
          | nil =>
            simp only [List.headD_nil] at h2
            omega
          | cons r2 t =>
            simp only [List.headD_cons] at h2
            have ht : t.length ≤ n := by simp at hrest; omega
            have hbt : ∀ u ∈ t, u < 65536 := fun u hu => hbrest u (by simp [hu])
            have hp : 0xD800 ≤ r ∧ r < 0xDC00 ∧ 0xDC00 ≤ r2 ∧ r2 < 0xE000 := by omega
            rw [decodeWTF16_pair r r2 t [] hp, decodeWTF16_append, List.nil_append,
              encodeWTF16_pairBytes r r2 _ hp, ih t ht hbt]
            rfl
        · rw [decodeWTF16_lone r rest [] (by omega) h2, decodeWTF16_append, List.nil_append]
          have hs := encodeWTF16_surrogate (0x80 + r / 64 % 64) (0x80 + r % 64)
            (syscall.decodeWTF16 rest []) (by omega) (by omega)
          have e : 0xD000 + (0x80 + r / 64 % 64) % 64 * 64 + (0x80 + r % 64) % 64 = r := by omega
          rw [e, ih rest hrest hbrest] at hs
          exact hs

theorem runeBytes_no_zero (r : Nat) (h : r ≠ 0) : ∀ b ∈ runeBytes r, b ≠ 0 := by
  unfold runeBytes
  intro b hb
  split_ifs at hb <;> simp at hb <;> omega

theorem decodeWTF16_no_zero (n : Nat) : ∀ s : List Nat, s.length ≤ n → (∀ u ∈ s, u ≠ 0) →
    ∀ b ∈ syscall.decodeWTF16 s [], b ≠ 0 := by
  induction n with
  | zero =>
    intro s h _ b hb
    have : s = [] := List.length_eq_zero.mp (by omega)
    subst this
    simp [syscall.decodeWTF16] at hb
  | succ n ih =>
    intro s h hz b hb
    cases s with
    | nil => simp [syscall.decodeWTF16] at hb
    | cons r rest =>
      have hrest : rest.length ≤ n := by simpa using h
      have hr : r ≠ 0 := hz r (by simp)
      have hzrest : ∀ u ∈ rest, u ≠ 0 := fun u hu => hz u (by simp [hu])
      by_cases h1 : r < 0xD800 ∨ 0xE000 ≤ r
      · rw [decodeWTF16_normal r rest [] h1, decodeWTF16_append, List.nil_append,
          List.mem_append] at hb
        rcases hb with hb | hb
        · exact runeBytes_no_zero r hr b hb
        · exact ih rest hrest hzrest b hb
      · by_cases h2 : r < 0xDC00 ∧ 0xDC00 ≤ rest.headD 0 ∧ rest.headD 0 < 0xE000
        · cases rest with
          | nil =>
            simp only [List.headD_nil] at h2
            omega
          | cons r2 t =>
            simp only [List.headD_cons] at h2
            have ht : t.length ≤ n := by simp at hrest; omega
            have hzt : ∀ u ∈ t, u ≠ 0 := fun u hu => hzrest u (by simp [hu])
            have hp : 0xD800 ≤ r ∧ r < 0xDC00 ∧ 0xDC00 ≤ r2 ∧ r2 < 0xE000 := by omega
            have key : ∀ X : List Nat, (∀ x ∈ X, x ≠ 0) →
                b ∈ syscall.decodeWTF16 t ([] ++ X) → b ≠ 0 := by
              intro X hX hb2
              rw [decodeWTF16_append, List.nil_append, List.mem_append] at hb2
              rcases hb2 with hb2 | hb2
              · exact hX b hb2
              · exact ih t ht hzt b hb2
            rw [decodeWTF16_pair r r2 t [] hp] at hb
            exact key _ (runeBytes_no_zero _ (by omega)) hb
        · rw [decodeWTF16_lone r rest [] (by omega) h2, decodeWTF16_append, List.nil_append,
            List.mem_append] at hb
          rcases hb with hb | hb
          · simp at hb
            omega
          · exact ih rest hrest hzrest b hb

theorem untilNUL_no_zero (s : List Nat) : ∀ u ∈ syscall.untilNUL s, u ≠ 0 := by
  induction s with
  | nil => simp [syscall.untilNUL]
  | cons v rest ih =>
    intro u hu
    unfold syscall.untilNUL at hu
    by_cases hv : v = 0
    · simp [hv] at hu
    · simp only [hv, if_false, List.mem_cons] at hu
      rcases hu with hu | hu
      · omega
      · exact ih u hu

theorem untilNUL_mem (s : List Nat) : ∀ u ∈ syscall.untilNUL s, u ∈ s := by
  induction s with
  | nil => simp [syscall.untilNUL]
  | cons v rest ih =>
    intro u hu
    unfold syscall.untilNUL at hu
    by_cases hv : v = 0
    · simp [hv] at hu
    · simp only [hv, if_false, List.mem_cons] at hu
      rcases hu with hu | hu
      · simp [hu]
      · exact List.mem_cons_of_mem _ (ih u hu)

theorem untilNUL_length_le (s : List Nat) : (syscall.untilNUL s).length ≤ s.length := by
  induction s with
  | nil => simp [syscall.untilNUL]
  | cons v rest ih =>
    unfold syscall.untilNUL
    by_cases hv : v = 0
    · simp [hv]
    · simp only [hv, if_false, List.length_cons]
      omega

theorem untilNUL_append_zero (x rest : List Nat) (h : ∀ u ∈ x, u ≠ 0) :
    syscall.untilNUL (x ++ 0 :: rest) = x := by
  induction x with
  | nil => simp [syscall.untilNUL]
  | cons v t ih =>
    have hv : v ≠ 0 := h v (by simp)
    rw [List.cons_append, syscall.untilNUL, if_neg hv, ih (fun u hu => h u (by simp [hu]))]

theorem untilNUL_of_no_zero (x : List Nat) (h : ∀ u ∈ x, u ≠ 0) : syscall.untilNUL x = x := by
  induction x with
  | nil => simp [syscall.untilNUL]
  | cons v t ih =>
    have hv : v ≠ 0 := h v (by simp)
    simp only [syscall.untilNUL, hv, if_false]
    rw [ih (fun u hu => h u (by simp [hu]))]

/-- The string `UTF16ToString` returns never contains a NUL byte. -/
theorem UTF16ToString_no_zero (s : List Nat) : ∀ b ∈ syscall.UTF16ToString s, b ≠ 0 :=
  decodeWTF16_no_zero _ _ (Nat.le_refl _) (untilNUL_no_zero s)

/-- Re-encoding the captured string: `UTF16FromString` after `UTF16ToString`
never fails and gives the code units before the first NUL, then one NUL. -/
theorem UTF16FromString_UTF16ToString (s : List Nat) (hb : ∀ u ∈ s, u < 65536) :
    syscall.UTF16FromString (syscall.UTF16ToString s) = .ok (syscall.untilNUL s ++ [0]) := by
  unfold syscall.UTF16FromString
  have hz : (syscall.UTF16ToString s).contains 0 = false := by
    rw [Bool.eq_false_iff]
    intro hc
    have hm : 0 ∈ syscall.UTF16ToString s := by simpa using hc
    exact UTF16ToString_no_zero s 0 hm rfl
  rw [hz]
  simp only [Bool.false_eq_true, if_false]
  unfold syscall.UTF16ToString
  rw [encodeWTF16_decodeWTF16 _ _ (Nat.le_refl _) (fun u hu => hb u (untilNUL_mem s u hu))]

end Codec

/-! ## The handler, path by path -/

namespace ClipListener

theorem tryOpen_retry (openClipboard : Nat → Bool) : ∀ (n fuel k : Nat),
    (∀ i, i < n → openClipboard (k + i) = false) → openClipboard (k + n) = true → n < fuel →
    tryOpenWinApiClipboard fuel openClipboard k = some (retryCalls n) := by
  intro n
  induction n with
  | zero =>
    intro fuel k _ ht hf
    cases fuel with
    | zero => omega
    | succ f =>
      have ht2 : openClipboard k = true := by simpa using ht
      simp [tryOpenWinApiClipboard, ht2, retryCalls]
  | succ n ih =>
    intro fuel k hfalse ht hf
    cases fuel with
    | zero => omega
    | succ f =>
      have h0 : openClipboard k = false := by simpa using hfalse 0 (by omega)
      have hrec := ih f (k + 1) (fun i hi => by
        have := hfalse (i + 1) (by omega)
        rwa [show k + 1 + i = k + (i + 1) by omega]) (by
        rwa [show k + 1 + n = k + (n + 1) by omega]) (by omega)
      simp [tryOpenWinApiClipboard, h0, hrec, retryCalls]

theorem tryOpen_short (openClipboard : Nat → Bool) : ∀ (fuel k : Nat),
    (∀ i, i < fuel → openClipboard (k + i) = false) →
    tryOpenWinApiClipboard fuel openClipboard k = none := by
  intro fuel
  induction fuel with
  | zero => intro k _; rfl
  | succ f ih =>
    intro k hfalse
    have h0 : openClipboard k = false := by simpa using hfalse 0 (by omega)
    have hrec := ih (k + 1) (fun i hi => by
      have := hfalse (i + 1) (by omega)
      rwa [show k + 1 + i = k + (i + 1) by omega])
    simp [tryOpenWinApiClipboard, h0, hrec]

theorem tryOpen_first (openClipboard : Nat → Bool) (n fuel : Nat)
    (h : FirstSuccess openClipboard n) (hf : n < fuel) :
    tryOpenWinApiClipboard fuel openClipboard 0 = some (retryCalls n) :=
  tryOpen_retry openClipboard n fuel 0 (fun i hi => by simpa using h.1 i hi) (by simpa using h.2) hf

theorem retryCalls_attempts (n : Nat) : attempts (retryCalls n) = n + 1 := by
  induction n with
  | zero => rfl
  | succ n ih =>
    simp only [retryCalls, attempts, List.countP_cons, Call.isOpen] at ih ⊢
    simp [ih]

theorem retryCalls_acquires (n : Nat) : acquires (retryCalls n) = 1 := by
  induction n with
  | zero => rfl
  | succ n ih =>
    simp only [retryCalls, acquires] at ih ⊢
    rw [List.count_cons, List.count_cons, ih]
    simp

theorem retryCalls_releases (n : Nat) : releases (retryCalls n) = n := by
  induction n with
  | zero => rfl
  | succ n ih =>
    simp only [retryCalls, releases] at ih ⊢
    rw [List.count_cons, List.count_cons, ih]
    simp

theorem retryCalls_no_capture (n : Nat) : ∀ c ∈ retryCalls n, c.isCaptureRepublish = false := by
  induction n with
  | zero => simp [retryCalls, Call.isCaptureRepublish]
  | succ n ih =>
    intro c hc
    simp only [retryCalls, List.mem_cons] at hc
    rcases hc with hc | hc | hc
    · subst hc; rfl
    · subst hc; rfl
    · exact ih c hc

theorem retryCalls_no_memory (n : Nat) : ∀ c ∈ retryCalls n, c.isMemory = false := by
  induction n with
  | zero => simp [retryCalls, Call.isMemory]
  | succ n ih =>
    intro c hc
    simp only [retryCalls, List.mem_cons] at hc
    rcases hc with hc | hc | hc
    · subst hc; rfl
    · subst hc; rfl
    · exact ih c hc

theorem retryCalls_notifications (hwnd n : Nat) : selfNotifications hwnd (retryCalls n) = [] := by
  induction n with
  | zero => rfl
  | succ n ih => simp [retryCalls, selfNotifications, notificationOf, ih]

theorem selfNotifications_append (hwnd : Nat) (a b : List Call) :
    selfNotifications hwnd (a ++ b) = selfNotifications hwnd a ++ selfNotifications hwnd b := by
  induction a with
  | nil => rfl
  | cons c cs ih => simp [selfNotifications, ih]

theorem captured_length (env : Env) : (captured env).length ≤ 1048576 := by
  unfold captured
  have h1 := Codec.untilNUL_length_le (env.memory.take (1 <<< 20))
  have h2 : (env.memory.take (1 <<< 20)).length ≤ 1048576 := by
    rw [List.length_take]
    exact Nat.min_le_left _ _
  omega

theorem uintptr_units (u : List Nat) (h : u.length ≤ 1048576) :
    uintptr ((u ++ [0]).length * 2) = 2 * (u ++ [0]).length := by
  unfold uintptr
  rw [List.length_append, List.length_singleton]
  have : (2 : Nat) ^ 64 = 18446744073709551616 := by norm_num
  rw [this]
  omega

/-- Re-encoding of what the handler captured: never an error, always the
captured code units followed by one NUL. -/
theorem reencode_captured (env : Env) (hb : ∀ u ∈ env.memory, u < 65536) :
    syscall.UTF16FromString (syscall.UTF16ToString (env.memory.take (1 <<< 20)))
      = .ok (captured env ++ [0]) :=
  Codec.UTF16FromString_UTF16ToString _ (fun u hu => hb u (List.mem_of_mem_take hu))

/-- The body of the handler on an external notification with text present and
all memory calls succeeding: the full cycle, ending in `os.Exit` when
`SetClipboardData` returns zero and in `return 0` otherwise. -/
theorem body_external (env : Env) (wcl : WindowsClipboardListener)
    (hw4 : wcl.message.WParam ≠ 0x4) (hw0 : wcl.message.WParam ≠ 0x0)
    (hd : env.getClipboardData ≠ 0) (hl : env.lockData ≠ 0) (ha : env.globalAlloc ≠ 0)
    (hm : env.lockMem ≠ 0) (hb : ∀ u ∈ env.memory, u < 65536) :
    clipboardUpdateBody env wcl =
      if env.setClipboardData = 0 then
        ⟨cycleCalls env (captured env ++ [0]), [.setClipboardDataError],
          [Call.globalFree env.globalAlloc], syscall.UTF16ToString (env.memory.take (1 <<< 20)),
          .osExit 1⟩
      else
        ⟨cycleCalls env (captured env ++ [0]), [.setClipboardDataOK, .copiedAt], [],
          syscall.UTF16ToString (env.memory.take (1 <<< 20)), .returned 0 .done⟩ := by
  unfold clipboardUpdateBody
  simp only [hw4, hw0, hd, hl, ha, hm, if_false, reencode_captured env hb,
    uintptr_units (captured env) (captured_length env)]
  have hlen : ¬ ((captured env ++ [0]).length = 0) := by simp
  simp only [hlen, if_false, cycleCalls, List.cons_append, List.nil_append]

theorem retryCalls_eq (n : Nat) : retryCalls n = failedAttempts n ++ [Call.openClipboard true] := by
  induction n with
  | zero => rfl
  | succ n ih => simp [retryCalls, failedAttempts, ih]

/-- The outcome with `n` failed attempts is the outcome without contention with
the calls of the failed attempts put in front. -/
theorem runDeferred_retry (n : Nat) (f : Frame) :
    runDeferred ⟨retryCalls n ++ f.calls, f.out, f.deferred, f.copied, f.exit⟩ =
      { runDeferred ⟨retryCalls 0 ++ f.calls, f.out, f.deferred, f.copied, f.exit⟩ with
        calls := failedAttempts n ++
          (runDeferred ⟨retryCalls 0 ++ f.calls, f.out, f.deferred, f.copied, f.exit⟩).calls } := by
  rw [retryCalls_eq n]
  unfold runDeferred
  cases f.exit <;> simp [retryCalls]

theorem retryCalls_no_free (n : Nat) : ∀ c ∈ retryCalls n, c.isFree = false := by
  intro c hc
  have h := retryCalls_no_memory n c hc
  cases c <;> simp [Call.isFree, Call.isMemory] at h ⊢

theorem cycleCalls_moveMemory (env : Env) (units : List Nat) :
    Call.moveMemory env.lockMem units (2 * units.length) ∈ cycleCalls env units := by
  unfold cycleCalls
  simp

theorem cycleCalls_setClipboardData (env : Env) (units : List Nat) :
    Call.setClipboardData CF_UNICODETEXT env.globalAlloc env.setClipboardData
      ∈ cycleCalls env units := by
  unfold cycleCalls
  simp

theorem mem_runDeferred (f : Frame) (c : Call) (h : c ∈ f.calls) : c ∈ (runDeferred f).calls := by
  unfold runDeferred
  split
  · exact h
  · exact List.mem_append_left _ h

/-- The handler on an external notification, text present, publish succeeding. -/
theorem handler_done (fuel n : Nat) (env : Env) (wcl : WindowsClipboardListener)
    (hwnd wparam lparam : Nat) (ho : FirstSuccess env.openClipboard n) (hf : n < fuel)
    (hw4 : wcl.message.WParam ≠ 4) (hw0 : wcl.message.WParam ≠ 0)
    (hd : env.getClipboardData ≠ 0) (hl : env.lockData ≠ 0) (ha : env.globalAlloc ≠ 0)
    (hm : env.lockMem ≠ 0) (hb : ∀ u ∈ env.memory, u < 65536)
    (hs : env.setClipboardData ≠ 0) :
    wmClipboardUpdateHandler fuel env wcl hwnd WM_CLIPBOARDUPDATE wparam lparam =
      some ⟨retryCalls n ++ cycleCalls env (captured env ++ [0]) ++ [Call.closeClipboard],
        [.setClipboardDataOK, .copiedAt], syscall.UTF16ToString (env.memory.take (1 <<< 20)),
        .returned 0 .done⟩ := by
  unfold wmClipboardUpdateHandler
  rw [if_pos rfl, tryOpen_first env.openClipboard n fuel ho hf]
  simp only [body_external env wcl hw4 hw0 hd hl ha hm hb, if_neg hs, runDeferred,
    List.reverse_cons, List.reverse_nil, List.nil_append]

/-- The handler on a notification of subtype 0. -/
theorem handler_selfClear (fuel n : Nat) (env : Env) (wcl : WindowsClipboardListener)
    (hwnd wparam lparam : Nat) (ho : FirstSuccess env.openClipboard n) (hf : n < fuel)
    (hw : wcl.message.WParam = 0) :
    wmClipboardUpdateHandler fuel env wcl hwnd WM_CLIPBOARDUPDATE wparam lparam =
      some ⟨retryCalls n ++ [Call.closeClipboard], [], wcl.copied, .returned 0 .selfClear⟩ := by
  unfold wmClipboardUpdateHandler clipboardUpdateBody
  rw [if_pos rfl, tryOpen_first env.openClipboard n fuel ho hf]
  have h4 : ¬ ((0 : Nat) = 4) := by decide
  simp only [h4, hw, if_true, if_false, runDeferred, List.reverse_cons, List.reverse_nil,
    List.nil_append, List.append_nil]

/-- The handler on a notification of subtype 4. -/
theorem handler_selfSet (fuel n : Nat) (env : Env) (wcl : WindowsClipboardListener)
    (hwnd wparam lparam : Nat) (ho : FirstSuccess env.openClipboard n) (hf : n < fuel)
    (hw : wcl.message.WParam = 4) :
    wmClipboardUpdateHandler fuel env wcl hwnd WM_CLIPBOARDUPDATE wparam lparam =
      some ⟨retryCalls n ++ [Call.closeClipboard], [], wcl.copied, .returned 0 .selfSet⟩ := by
  unfold wmClipboardUpdateHandler clipboardUpdateBody
  rw [if_pos rfl, tryOpen_first env.openClipboard n fuel ho hf]
  simp only [hw, if_true, runDeferred, List.reverse_cons, List.reverse_nil,
    List.nil_append, List.append_nil]

theorem selfNotifications_cycle (hwnd n : Nat) (env : Env) (units : List Nat)
    (hs : env.setClipboardData ≠ 0) :
    selfNotifications hwnd (retryCalls n ++ cycleCalls env units ++ [Call.closeClipboard]) =
      [⟨hwnd, WM_CLIPBOARDUPDATE, 0x0, 0, 0, ⟨0, 0⟩⟩, ⟨hwnd, WM_CLIPBOARDUPDATE, 0x4, 0, 0, ⟨0, 0⟩⟩] := by
  rw [selfNotifications_append, selfNotifications_append, retryCalls_notifications]
  simp [cycleCalls, selfNotifications, notificationOf, hs]

theorem selfNotifications_self (hwnd n : Nat) :
    selfNotifications hwnd (retryCalls n ++ [Call.closeClipboard]) = [] := by
  rw [selfNotifications_append, retryCalls_notifications]
  rfl

theorem startsCycle_cycle (n : Nat) (env : Env) (units : List Nat) (out : List Line)
    (copied : List Nat) (exit : Exit) :
    startsCycle ⟨retryCalls n ++ cycleCalls env units ++ [Call.closeClipboard], out, copied, exit⟩
      = true := by
  unfold startsCycle
  rw [List.any_eq_true]
  exact ⟨Call.emptyClipboard, by simp [cycleCalls], rfl⟩

theorem startsCycle_self (n : Nat) (out : List Line) (copied : List Nat) (exit : Exit) :
    startsCycle ⟨retryCalls n ++ [Call.closeClipboard], out, copied, exit⟩ = false := by
  unfold startsCycle
  rw [List.any_eq_false]
  intro c hc
  simp only [List.mem_append, List.mem_singleton] at hc
  rcases hc with hc | hc
  · simp [retryCalls_no_capture n c hc]
  · subst hc; simp [Call.isCaptureRepublish]

/-- One iteration of the loop that retrieves `m` and whose dispatch returns. -/
theorem listenStep_dispatch (fuel : Nat) (w : World) (p : Process) (m : MSG) (q : List MSG)
    (r : Result) (v : Nat) (site : ReturnSite)
    (hst : p.status = .running) (hq : p.queue = m :: q) (hm : m.Message = WM_CLIPBOARDUPDATE)
    (hr : wmClipboardUpdateHandler fuel (w.env p.history.length) { p.wcl with message := m }
      m.Hwnd WM_CLIPBOARDUPDATE m.WParam m.LParam = some r)
    (he : r.exit = .returned v site) :
    listenStep fuel w p =
      ⟨{ wndHandler := p.wcl.wndHandler, message := m, copied := r.copied },
        q ++ w.post r.calls, p.history ++ [r], .running⟩ := by
  unfold listenStep
  rw [hst]
  simp only [hq, getMessage, hm, Nat.le_refl, and_self, if_true, hr, he]

theorem listenStep_blocked (fuel : Nat) (w : World) (p : Process)
    (hst : p.status = .running) (hq : p.queue = []) :
    listenStep fuel w p = { p with status := .blocked } := by
  unfold listenStep
  rw [hst]
  simp only [hq, getMessage]

theorem listen_blocked (fuel : Nat) (w : World) (k : Nat) (p : Process)
    (hst : p.status = .blocked) : listen fuel w k p = p := by
  induction k with
  | zero => rfl
  | succ k ih =>
    rw [listen]
    have : listenStep fuel w p = p := by
      unfold listenStep
      rw [hst]
    rw [this, ih]

end ClipListener

/-! ## The reference encoding -/

namespace Reference

theorem char_valid (c : Char) : c.toNat < 0xD800 ∨ (0xDFFF < c.toNat ∧ c.toNat < 0x110000) := by
  have := c.valid
  simpa [UInt32.isValidChar, Nat.isValidChar, Char.toNat] using this

theorem char_ext (c d : Char) (h : c.toNat = d.toNat) : c = d := by
  apply Char.ext
  cases hc : c.val with | mk cv =>
  cases hd : d.val with | mk dv =>
  simp only [Char.toNat, UInt32.toNat, hc, hd] at h
  congr
  exact BitVec.eq_of_toFin_eq (Fin.ext h)

theorem utf16OfChar_bound (c : Char) : ∀ u ∈ utf16OfChar c, u < 65536 := by
  intro u hu
  have hv := char_valid c
  unfold utf16OfChar at hu
  split_ifs at hu <;> simp at hu <;> omega

theorem utf16OfChar_no_zero (c : Char) (h : c.toNat ≠ 0) : ∀ u ∈ utf16OfChar c, u ≠ 0 := by
  intro u hu
  unfold utf16OfChar at hu
  split_ifs at hu <;> simp at hu <;> omega

theorem utf16Encode_bound (x : List Char) : ∀ u ∈ utf16Encode x, u < 65536 := by
  induction x with
  | nil => simp [utf16Encode]
  | cons c cs ih =>
    intro u hu
    simp only [utf16Encode, List.mem_append] at hu
    rcases hu with hu | hu
    · exact utf16OfChar_bound c u hu
    · exact ih u hu

theorem utf16Encode_no_zero (x : List Char) (h : ∀ c ∈ x, c.toNat ≠ 0) :
    ∀ u ∈ utf16Encode x, u ≠ 0 := by
  induction x with
  | nil => simp [utf16Encode]
  | cons c cs ih =>
    intro u hu
    simp only [utf16Encode, List.mem_append] at hu
    rcases hu with hu | hu
    · exact utf16OfChar_no_zero c (h c (by simp)) u hu
    · exact ih (fun d hd => h d (by simp [hd])) u hu

/-- Two characters whose encodings start two equal sequences are equal, and so
are the rests. -/
theorem utf16OfChar_append_inj (c d : Char) (a b : List Nat)
    (h : utf16OfChar c ++ a = utf16OfChar d ++ b) : c = d ∧ a = b := by
  have hc := char_valid c
  have hd := char_valid d
  unfold utf16OfChar at h
  by_cases h1 : c.toNat < 0x10000 <;> by_cases h2 : d.toNat < 0x10000
  · simp only [h1, h2, if_true, List.cons_append, List.nil_append, List.cons.injEq] at h
    exact ⟨char_ext c d h.1, h.2⟩
  · simp only [h1, h2, if_true, if_false, List.cons_append, List.nil_append, List.cons.injEq] at h
    omega
  · simp only [h1, h2, if_true, if_false, List.cons_append, List.nil_append, List.cons.injEq] at h
    omega
  · simp only [h1, h2, if_false, List.cons_append, List.nil_append, List.cons.injEq] at h
    exact ⟨char_ext c d (by omega), h.2.2⟩

theorem utf16OfChar_ne_nil (c : Char) : utf16OfChar c ≠ [] := by
  unfold utf16OfChar
  split_ifs <;> simp

/-- The reference encoding determines the text. -/
theorem utf16Encode_injective : ∀ x y : List Char, utf16Encode x = utf16Encode y → x = y := by
  intro x
  induction x with
  | nil =>
    intro y h
    cases y with
    | nil => rfl
    | cons d ds =>
      exfalso
      simp only [utf16Encode] at h
      have h2 := congrArg List.length h
      have h3 := List.length_pos.mpr (utf16OfChar_ne_nil d)
      simp only [List.length_nil, List.length_append] at h2
      omega
  | cons c cs ih =>
    intro y h
    cases y with
    | nil =>
      exfalso
      simp only [utf16Encode] at h
      have h2 := congrArg List.length h
      have h3 := List.length_pos.mpr (utf16OfChar_ne_nil c)
      simp only [List.length_nil, List.length_append] at h2
      omega
    | cons d ds =>
      simp only [utf16Encode] at h
      obtain ⟨h1, h2⟩ := utf16OfChar_append_inj c d _ _ h
      rw [h1, ih ds h2]

theorem nulTerminated_injective (x y : List Char) (h : nulTerminated x = nulTerminated y) :
    x = y := by
  unfold nulTerminated at h
  exact utf16Encode_injective x y (List.append_cancel_right h)

theorem utf16Encode_replicate (n : Nat) :
    utf16Encode (List.replicate n (Char.ofNat 97)) = List.replicate n 97 := by
  induction n with
  | zero => rfl
  | succ n ih =>
    rw [List.replicate_succ, utf16Encode, ih, List.replicate_succ]
    rfl

end Reference

/-! ## The claims -/

namespace ClipListener

theorem handler_unfold (fuel n : Nat) (env : Env) (wcl : WindowsClipboardListener)
    (hwnd wparam lparam : Nat) (ho : FirstSuccess env.openClipboard n) (hf : n < fuel) :
    wmClipboardUpdateHandler fuel env wcl hwnd WM_CLIPBOARDUPDATE wparam lparam =
      some (runDeferred ⟨retryCalls n ++ (clipboardUpdateBody env wcl).calls,
        (clipboardUpdateBody env wcl).out,
        Call.closeClipboard :: (clipboardUpdateBody env wcl).deferred,
        (clipboardUpdateBody env wcl).copied, (clipboardUpdateBody env wcl).exit⟩) := by
  unfold wmClipboardUpdateHandler
  rw [if_pos rfl, tryOpen_first env.openClipboard n fuel ho hf]

theorem body_selfSet (env : Env) (wcl : WindowsClipboardListener) (h : wcl.message.WParam = 0x4) :
    clipboardUpdateBody env wcl = ⟨[], [], [], wcl.copied, .returned 0 .selfSet⟩ := by
  unfold clipboardUpdateBody
  rw [if_pos h]

theorem body_selfClear (env : Env) (wcl : WindowsClipboardListener)
    (h : wcl.message.WParam = 0x0) :
    clipboardUpdateBody env wcl = ⟨[], [], [], wcl.copied, .returned 0 .selfClear⟩ := by
  unfold clipboardUpdateBody
  rw [if_neg (by omega), if_pos h]

theorem body_noData (env : Env) (wcl : WindowsClipboardListener)
    (hw4 : wcl.message.WParam ≠ 0x4) (hw0 : wcl.message.WParam ≠ 0x0)
    (hd : env.getClipboardData = 0) :
    clipboardUpdateBody env wcl =
      ⟨[Call.getClipboardData CF_UNICODETEXT 0], [.getClipboardDataFailed], [], wcl.copied,
        .returned 0 .noData⟩ := by
  unfold clipboardUpdateBody
  simp only [hw4, hw0, hd, if_false, if_true]

/-- On an external notification the body always starts with `getClipboardData`
and never ends at one of the two self-caused returns. -/
theorem body_external_start (env : Env) (wcl : WindowsClipboardListener)
    (hw4 : wcl.message.WParam ≠ 0x4) (hw0 : wcl.message.WParam ≠ 0x0) :
    (∃ rest, (clipboardUpdateBody env wcl).calls
        = Call.getClipboardData CF_UNICODETEXT env.getClipboardData :: rest) ∧
      (clipboardUpdateBody env wcl).exit ≠ .returned 0 .selfSet ∧
      (clipboardUpdateBody env wcl).exit ≠ .returned 0 .selfClear := by
  unfold clipboardUpdateBody
  simp only [hw4, hw0, if_false]
  cases hU : syscall.UTF16FromString (syscall.UTF16ToString (env.memory.take (1 <<< 20))) with
  | error e => dsimp only; split_ifs <;> exact ⟨⟨_, rfl⟩, by simp, by simp⟩
  | ok u => dsimp only; split_ifs <;> exact ⟨⟨_, rfl⟩, by simp, by simp⟩

/-- The body makes no `openClipboard` and no `closeClipboard` call of its own,
and registers a deferred call only on the path that ends in `os.Exit`. -/
theorem body_guard_free (env : Env) (wcl : WindowsClipboardListener) :
    (∀ c ∈ (clipboardUpdateBody env wcl).calls, c ≠ Call.closeClipboard ∧ c.isOpen = false) ∧
      ((∀ code, (clipboardUpdateBody env wcl).exit ≠ .osExit code) →
        (clipboardUpdateBody env wcl).deferred = []) := by
  by_cases hw4 : wcl.message.WParam = 0x4
  · rw [body_selfSet env wcl hw4]
    simp
  by_cases hw0 : wcl.message.WParam = 0x0
  · rw [body_selfClear env wcl hw0]
    simp
  unfold clipboardUpdateBody
  simp only [hw4, hw0, if_false]
  cases hU : syscall.UTF16FromString (syscall.UTF16ToString (env.memory.take (1 <<< 20))) with
  | error e =>
    dsimp only
    split_ifs <;> refine ⟨?_, ?_⟩ <;> simp [Call.isOpen]
  | ok u =>
    dsimp only
    split_ifs <;> refine ⟨?_, ?_⟩ <;> simp [Call.isOpen]

theorem releases_append (a b : List Call) : releases (a ++ b) = releases a + releases b := by
  unfold releases
  exact List.count_append _ _ _

theorem acquires_append (a b : List Call) : acquires (a ++ b) = acquires a + acquires b := by
  unfold acquires
  exact List.count_append _ _ _

theorem attempts_append (a b : List Call) : attempts (a ++ b) = attempts a + attempts b := by
  unfold attempts
  exact List.countP_append _ _ _

theorem body_counts (env : Env) (wcl : WindowsClipboardListener) :
    releases (clipboardUpdateBody env wcl).calls = 0 ∧
      acquires (clipboardUpdateBody env wcl).calls = 0 ∧
      attempts (clipboardUpdateBody env wcl).calls = 0 := by
  have h := (body_guard_free env wcl).1
  refine ⟨?_, ?_, ?_⟩
  · unfold releases
    rw [List.count_eq_zero]
    intro hc
    exact (h _ hc).1 rfl
  · unfold acquires
    rw [List.count_eq_zero]
    intro hc
    have := (h _ hc).2
    simp [Call.isOpen] at this
  · unfold attempts
    rw [List.countP_eq_zero]
    intro c hc
    simp [(h c hc).2]

/-- Claim C1.  On a clipboard-change notification the handler sorts the subtype
`wcl.message.WParam`: 4 ends at the self-set return, 0 at the self-clear return,
and any other value goes on to `getClipboardData`; for subtype 4 or 0 none of
`getClipboardData`, `emptyClipboard`, `globalAlloc`, `moveMemory`,
`setClipboardData` is called. -/
theorem C1_classification (fuel n : Nat) (env : Env) (wcl : WindowsClipboardListener)
    (hwnd wparam lparam : Nat) (ho : FirstSuccess env.openClipboard n) (hf : n < fuel) :
    ∃ r, wmClipboardUpdateHandler fuel env wcl hwnd WM_CLIPBOARDUPDATE wparam lparam = some r ∧
      (wcl.message.WParam = 4 →
        r.exit = .returned 0 .selfSet ∧ ∀ c ∈ r.calls, c.isCaptureRepublish = false) ∧
      (wcl.message.WParam = 0 →
        r.exit = .returned 0 .selfClear ∧ ∀ c ∈ r.calls, c.isCaptureRepublish = false) ∧
      (wcl.message.WParam ≠ 4 → wcl.message.WParam ≠ 0 →
        r.exit ≠ .returned 0 .selfSet ∧ r.exit ≠ .returned 0 .selfClear ∧
        Call.getClipboardData CF_UNICODETEXT env.getClipboardData ∈ r.calls) := by
  refine ⟨_, handler_unfold fuel n env wcl hwnd wparam lparam ho hf, ?_, ?_, ?_⟩
  · intro h4
    rw [body_selfSet env wcl h4]
    refine ⟨rfl, ?_⟩
    intro c hc
    simp only [runDeferred, List.append_nil, List.reverse_cons, List.reverse_nil, List.nil_append,
      List.mem_append, List.mem_singleton] at hc
    rcases hc with hc | hc
    · exact retryCalls_no_capture n c hc
    · subst hc; rfl
  · intro h0
    rw [body_selfClear env wcl h0]
    refine ⟨rfl, ?_⟩
    intro c hc
    simp only [runDeferred, List.append_nil, List.reverse_cons, List.reverse_nil, List.nil_append,
      List.mem_append, List.mem_singleton] at hc
    rcases hc with hc | hc
    · exact retryCalls_no_capture n c hc
    · subst hc; rfl
  · intro h4 h0
    obtain ⟨⟨rest, hrest⟩, he1, he2⟩ := body_external_start env wcl h4 h0
    have hex : (runDeferred ⟨retryCalls n ++ (clipboardUpdateBody env wcl).calls,
        (clipboardUpdateBody env wcl).out,
        Call.closeClipboard :: (clipboardUpdateBody env wcl).deferred,
        (clipboardUpdateBody env wcl).copied, (clipboardUpdateBody env wcl).exit⟩).exit
          = (clipboardUpdateBody env wcl).exit := by
      unfold runDeferred
      split <;> rfl
    refine ⟨by rw [hex]; exact he1, by rw [hex]; exact he2, ?_⟩
    unfold runDeferred
    split <;> simp [hrest]

/-- Witness of C1: the clipboard is busy once, then the subtype 4 is handled. -/
theorem C1_classification_witness :
    FirstSuccess envBusy.openClipboard 1 ∧ 1 < 2 ∧
    ∃ r, wmClipboardUpdateHandler 2 envBusy (wclOf 4) 1 WM_CLIPBOARDUPDATE 4 0 = some r ∧
      ((wclOf 4).message.WParam = 4 →
        r.exit = .returned 0 .selfSet ∧ ∀ c ∈ r.calls, c.isCaptureRepublish = false) ∧
      ((wclOf 4).message.WParam = 0 →
        r.exit = .returned 0 .selfClear ∧ ∀ c ∈ r.calls, c.isCaptureRepublish = false) ∧
      ((wclOf 4).message.WParam ≠ 4 → (wclOf 4).message.WParam ≠ 0 →
        r.exit ≠ .returned 0 .selfSet ∧ r.exit ≠ .returned 0 .selfClear ∧
        Call.getClipboardData CF_UNICODETEXT envBusy.getClipboardData ∈ r.calls) :=
  ⟨by decide, by decide, C1_classification 2 1 envBusy (wclOf 4) 1 4 0 (by decide) (by decide)⟩

/-- Claim C7.  On an external notification for which `getClipboardData` returns
a zero handle the handler calls nothing but the opening of the clipboard,
`getClipboardData` and the deferred `closeClipboard`: no `emptyClipboard`, no
memory operation, no `setClipboardData`, no `globalFree`; it returns 0 through
the no-data return and the process goes on. -/
theorem C7_noData (fuel n : Nat) (env : Env) (wcl : WindowsClipboardListener)
    (hwnd wparam lparam : Nat) (ho : FirstSuccess env.openClipboard n) (hf : n < fuel)
    (hw4 : wcl.message.WParam ≠ 4) (hw0 : wcl.message.WParam ≠ 0)
    (hd : env.getClipboardData = 0) :
    ∃ r, wmClipboardUpdateHandler fuel env wcl hwnd WM_CLIPBOARDUPDATE wparam lparam = some r ∧
      r.calls = retryCalls n ++ [Call.getClipboardData CF_UNICODETEXT 0, Call.closeClipboard] ∧
      r.exit = .returned 0 .noData ∧
      r.copied = wcl.copied ∧
      (∀ c ∈ r.calls, c ≠ Call.emptyClipboard ∧ c.isMemory = false ∧
        ∀ f h ret, c ≠ Call.setClipboardData f h ret) ∧
      selfNotifications hwnd r.calls = [] := by
  refine ⟨_, handler_unfold fuel n env wcl hwnd wparam lparam ho hf, ?_⟩
  rw [body_noData env wcl hw4 hw0 hd]
  simp only [runDeferred, List.reverse_cons, List.reverse_nil, List.nil_append, List.append_assoc,
    List.cons_append, true_and]
  refine ⟨?_, ?_⟩
  · intro c hc
    simp only [List.mem_append, List.mem_cons, List.mem_singleton, List.not_mem_nil, or_false]
      at hc
    rcases hc with hc | hc | hc
    · have h1 := retryCalls_no_capture n c hc
      have h2 := retryCalls_no_memory n c hc
      refine ⟨?_, h2, ?_⟩
      · intro e; subst e; simp [Call.isCaptureRepublish] at h1
      · intro f h ret e; subst e; simp [Call.isCaptureRepublish] at h1
    · subst hc; simp [Call.isMemory]
    · subst hc; simp [Call.isMemory]
  · rw [selfNotifications_append, retryCalls_notifications]
    rfl

/-- Witness of C7: the clipboard is busy once and then holds no text. -/
theorem C7_noData_witness :
    ∃ r, wmClipboardUpdateHandler 2 envNoDataBusy (wclOf 1) 1 WM_CLIPBOARDUPDATE 1 0 = some r ∧
      r.calls = retryCalls 1 ++ [Call.getClipboardData CF_UNICODETEXT 0, Call.closeClipboard] ∧
      r.exit = .returned 0 .noData ∧
      r.copied = (wclOf 1).copied ∧
      (∀ c ∈ r.calls, c ≠ Call.emptyClipboard ∧ c.isMemory = false ∧
        ∀ f h ret, c ≠ Call.setClipboardData f h ret) ∧
      selfNotifications 1 r.calls = [] :=
  C7_noData 2 1 envNoDataBusy (wclOf 1) 1 1 0 (by decide) (by decide) (by decide) (by decide) rfl

/-- Counterexample to C8 as stated: on a self-set notification (subtype 4) with
a free clipboard the handler does operate on the clipboard: it opens it and
closes it again. -/
theorem C8_counterexample :
    ∃ r, wmClipboardUpdateHandler 1 envText (wclOf 4) 1 WM_CLIPBOARDUPDATE 4 0 = some r ∧
      r.exit = .returned 0 .selfSet ∧
      r.calls = [Call.openClipboard true, Call.closeClipboard] ∧
      r.calls ≠ [] :=
  ⟨_, rfl, rfl, rfl, by decide⟩

/-- Claim C8, amended.  On a notification of subtype 4 or 0 the handler opens the
clipboard (retrying as `tryOpenWinApiClipboard` does), closes it once through
the deferred call and returns 0; it calls none of `getClipboardData`,
`emptyClipboard`, `setClipboardData`, makes no memory operation, writes
nothing and leaves `wcl.copied` as it was. -/
theorem C8_selfCaused_amended (fuel n : Nat) (env : Env) (wcl : WindowsClipboardListener)
    (hwnd wparam lparam : Nat) (ho : FirstSuccess env.openClipboard n) (hf : n < fuel)
    (hw : wcl.message.WParam = 4 ∨ wcl.message.WParam = 0) :
    ∃ r, wmClipboardUpdateHandler fuel env wcl hwnd WM_CLIPBOARDUPDATE wparam lparam = some r ∧
      r.calls = retryCalls n ++ [Call.closeClipboard] ∧
      (r.exit = .returned 0 .selfSet ∨ r.exit = .returned 0 .selfClear) ∧
      r.out = [] ∧ r.copied = wcl.copied ∧
      ∀ c ∈ r.calls, c.isCaptureRepublish = false ∧ c.isMemory = false := by
  refine ⟨_, handler_unfold fuel n env wcl hwnd wparam lparam ho hf, ?_⟩
  have hall : ∀ c ∈ retryCalls n ++ [Call.closeClipboard],
      c.isCaptureRepublish = false ∧ c.isMemory = false := by
    intro c hc
    simp only [List.mem_append, List.mem_singleton] at hc
    rcases hc with hc | hc
    · exact ⟨retryCalls_no_capture n c hc, retryCalls_no_memory n c hc⟩
    · subst hc; exact ⟨rfl, rfl⟩
  rcases hw with h | h
  · rw [body_selfSet env wcl h]
    simp only [runDeferred, List.reverse_cons, List.reverse_nil, List.nil_append, List.append_nil,
      true_and, true_or]
    exact hall
  · rw [body_selfClear env wcl h]
    simp only [runDeferred, List.reverse_cons, List.reverse_nil, List.nil_append, List.append_nil,
      true_and, or_true]
    exact hall

/-- Witness of C8 amended: subtype 0 while the clipboard is busy once. -/
theorem C8_selfCaused_amended_witness :
    ∃ r, wmClipboardUpdateHandler 2 envBusy (wclOf 0) 1 WM_CLIPBOARDUPDATE 0 0 = some r ∧
      r.calls = retryCalls 1 ++ [Call.closeClipboard] ∧
      (r.exit = .returned 0 .selfSet ∨ r.exit = .returned 0 .selfClear) ∧
      r.out = [] ∧ r.copied = (wclOf 0).copied ∧
      ∀ c ∈ r.calls, c.isCaptureRepublish = false ∧ c.isMemory = false :=
  C8_selfCaused_amended 2 1 envBusy (wclOf 0) 1 0 0 (by decide) (by decide) (Or.inr rfl)

/-- Claim C9.  When `OpenClipboard` fails `n` times and then succeeds,
`tryOpenWinApiClipboard` comes back (given more than `n` units of recursion
depth, and not with fewer), having called `openClipboard` exactly `n + 1` times,
the last call being the one that obtained the clipboard; and the handler then
does exactly what it does without contention, after the calls of the failed
attempts. -/
theorem C9_acquisition_retry (fuel n : Nat) (env : Env) (wcl : WindowsClipboardListener)
    (hwnd wparam lparam : Nat) (ho : FirstSuccess env.openClipboard n) :
    (fuel ≤ n → tryOpenWinApiClipboard fuel env.openClipboard 0 = none) ∧
    (n < fuel →
      tryOpenWinApiClipboard fuel env.openClipboard 0 = some (retryCalls n) ∧
      attempts (retryCalls n) = n + 1 ∧
      acquires (retryCalls n) = 1 ∧
      (retryCalls n).getLast? = some (Call.openClipboard true) ∧
      ∃ r0, wmClipboardUpdateHandler 1 { env with openClipboard := fun _ => true } wcl hwnd
          WM_CLIPBOARDUPDATE wparam lparam = some r0 ∧
        wmClipboardUpdateHandler fuel env wcl hwnd WM_CLIPBOARDUPDATE wparam lparam
          = some { r0 with calls := failedAttempts n ++ r0.calls }) := by
  refine ⟨?_, ?_⟩
  · intro hle
    exact tryOpen_short env.openClipboard fuel 0
      (fun i hi => by simpa using ho.1 i (by omega))
  · intro hf
    refine ⟨tryOpen_first env.openClipboard n fuel ho hf, retryCalls_attempts n,
      retryCalls_acquires n, ?_, ?_⟩
    · rw [retryCalls_eq]
      simp
    · have h0 : FirstSuccess ({ env with openClipboard := fun _ => true } : Env).openClipboard 0 :=
        ⟨fun i hi => by omega, rfl⟩
      have hb : clipboardUpdateBody { env with openClipboard := fun _ => true } wcl
          = clipboardUpdateBody env wcl := rfl
      refine ⟨_, handler_unfold 1 0 _ wcl hwnd wparam lparam h0 (by omega), ?_⟩
      rw [handler_unfold fuel n env wcl hwnd wparam lparam ho hf, hb]
      exact congrArg some (runDeferred_retry n
        ⟨(clipboardUpdateBody env wcl).calls, (clipboardUpdateBody env wcl).out,
          Call.closeClipboard :: (clipboardUpdateBody env wcl).deferred,
          (clipboardUpdateBody env wcl).copied, (clipboardUpdateBody env wcl).exit⟩)

/-- Witness of C9: one failed attempt before the clipboard is obtained. -/
theorem C9_acquisition_retry_witness :
    FirstSuccess envBusy.openClipboard 1 ∧
    ((2 ≤ 1 → tryOpenWinApiClipboard 2 envBusy.openClipboard 0 = none) ∧
    (1 < 2 →
      tryOpenWinApiClipboard 2 envBusy.openClipboard 0 = some (retryCalls 1) ∧
      attempts (retryCalls 1) = 1 + 1 ∧
      acquires (retryCalls 1) = 1 ∧
      (retryCalls 1).getLast? = some (Call.openClipboard true) ∧
      ∃ r0, wmClipboardUpdateHandler 1 { envBusy with openClipboard := fun _ => true } (wclOf 1) 1
          WM_CLIPBOARDUPDATE 1 0 = some r0 ∧
        wmClipboardUpdateHandler 2 envBusy (wclOf 1) 1 WM_CLIPBOARDUPDATE 1 0
          = some { r0 with calls := failedAttempts 1 ++ r0.calls })) :=
  ⟨by decide, C9_acquisition_retry 2 1 envBusy (wclOf 1) 1 1 0 (by decide)⟩

/-- Counterexample to C4 as stated.  First: `SetClipboardData` returns zero, the
process ends in `os.Exit` and the clipboard, opened once, is never closed.
Second: the clipboard is busy once and holds no text; it is obtained once and
`closeClipboard` is called twice. -/
theorem C4_counterexample :
    (∃ r, wmClipboardUpdateHandler 1 envFatal (wclOf 1) 1 WM_CLIPBOARDUPDATE 1 0 = some r ∧
      r.exit = .osExit 1 ∧ acquires r.calls = 1 ∧ releases r.calls = 0) ∧
    (∃ r, wmClipboardUpdateHandler 2 envNoDataBusy (wclOf 1) 1 WM_CLIPBOARDUPDATE 1 0 = some r ∧
      r.exit = .returned 0 .noData ∧ acquires r.calls = 1 ∧ releases r.calls = 2) :=
  ⟨⟨_, rfl, by decide, by decide, by decide⟩, ⟨_, rfl, by decide, by decide, by decide⟩⟩

/-- Claim C4, amended.  In every handling of a clipboard-change notification the
clipboard is obtained exactly once, after `n` failed attempts each followed by
one `closeClipboard`; and whenever the handler does not end in `os.Exit`, the
calls after the acquisition contain no further `openClipboard` or
`closeClipboard` except one `closeClipboard`, which is the last call: as many
`closeClipboard` calls as `openClipboard` calls, `n + 1`. -/
theorem C4_guard_balance_amended (fuel n : Nat) (env : Env) (wcl : WindowsClipboardListener)
    (hwnd wparam lparam : Nat) (ho : FirstSuccess env.openClipboard n) (hf : n < fuel) :
    ∃ r, wmClipboardUpdateHandler fuel env wcl hwnd WM_CLIPBOARDUPDATE wparam lparam = some r ∧
      acquires r.calls = 1 ∧ attempts r.calls = n + 1 ∧
      ((∀ code, r.exit ≠ .osExit code) →
        (∃ mid, r.calls = retryCalls n ++ mid ++ [Call.closeClipboard] ∧
          releases mid = 0 ∧ attempts mid = 0) ∧
        releases r.calls = n + 1 ∧
        r.calls.getLast? = some Call.closeClipboard) := by
  refine ⟨_, handler_unfold fuel n env wcl hwnd wparam lparam ho hf, ?_⟩
  obtain ⟨hrel, hacq, hatt⟩ := body_counts env wcl
  have hdef := (body_guard_free env wcl).2
  generalize clipboardUpdateBody env wcl = b at hrel hacq hatt hdef
  obtain ⟨calls, out, deferred, copied, exit⟩ := b
  simp only at hrel hacq hatt hdef
  cases exit with
  | osExit code =>
    simp only [runDeferred]
    refine ⟨?_, ?_, ?_⟩
    · rw [acquires_append, retryCalls_acquires, hacq]
    · rw [attempts_append, retryCalls_attempts, hatt]
    · intro h
      exact absurd rfl (h code)
  | returned v site =>
    have hd : deferred = [] := hdef (by simp)
    subst hd
    simp only [runDeferred, List.reverse_cons, List.reverse_nil, List.nil_append]
    refine ⟨?_, ?_, ?_⟩
    · rw [acquires_append, acquires_append, retryCalls_acquires, hacq]
      rfl
    · rw [attempts_append, attempts_append, retryCalls_attempts, hatt]
      rfl
    · intro _
      refine ⟨⟨calls, rfl, hrel, hatt⟩, ?_, ?_⟩
      · rw [releases_append, releases_append, retryCalls_releases, hrel]
        rfl
      · simp
  | panicked site =>
    have hd : deferred = [] := hdef (by simp)
    subst hd
    simp only [runDeferred, List.reverse_cons, List.reverse_nil, List.nil_append]
    refine ⟨?_, ?_, ?_⟩
    · rw [acquires_append, acquires_append, retryCalls_acquires, hacq]
      rfl
    · rw [attempts_append, attempts_append, retryCalls_attempts, hatt]
      rfl
    · intro _
      refine ⟨⟨calls, rfl, hrel, hatt⟩, ?_, ?_⟩
      · rw [releases_append, releases_append, retryCalls_releases, hrel]
        rfl
      · simp

/-- Witness of C4 amended: a successful republish after one failed attempt. -/
theorem C4_guard_balance_amended_witness :
    FirstSuccess envBusy.openClipboard 1 ∧
    ∃ r, wmClipboardUpdateHandler 2 envBusy (wclOf 1) 1 WM_CLIPBOARDUPDATE 1 0 = some r ∧
      acquires r.calls = 1 ∧ attempts r.calls = 1 + 1 ∧
      ((∀ code, r.exit ≠ .osExit code) →
        (∃ mid, r.calls = retryCalls 1 ++ mid ++ [Call.closeClipboard] ∧
          releases mid = 0 ∧ attempts mid = 0) ∧
        releases r.calls = 1 + 1 ∧
        r.calls.getLast? = some Call.closeClipboard) :=
  ⟨by decide, C4_guard_balance_amended 2 1 envBusy (wclOf 1) 1 1 0 (by decide) (by decide)⟩

/-- Claim C5, as the code behaves.  When `SetClipboardData` returns zero the
process ends in `os.Exit(1)` (reached through `log.Fatalln`) right after that
call: the `globalFree` registered with `defer` is never called, and neither is
the deferred `closeClipboard`. -/
theorem C5_fatal_path_never_frees (fuel n : Nat) (env : Env) (wcl : WindowsClipboardListener)
    (hwnd wparam lparam : Nat) (ho : FirstSuccess env.openClipboard n) (hf : n < fuel)
    (hw4 : wcl.message.WParam ≠ 4) (hw0 : wcl.message.WParam ≠ 0)
    (hd : env.getClipboardData ≠ 0) (hl : env.lockData ≠ 0) (ha : env.globalAlloc ≠ 0)
    (hm : env.lockMem ≠ 0) (hb : ∀ u ∈ env.memory, u < 65536)
    (hs : env.setClipboardData = 0) :
    ∃ r, wmClipboardUpdateHandler fuel env wcl hwnd WM_CLIPBOARDUPDATE wparam lparam = some r ∧
      r.exit = .osExit 1 ∧
      r.calls = retryCalls n ++
        [Call.getClipboardData CF_UNICODETEXT env.getClipboardData,
         Call.globalLock env.getClipboardData env.lockData,
         Call.globalUnlock env.getClipboardData,
         Call.emptyClipboard,
         Call.globalAlloc GMEM_MOVEABLE (2 * (captured env ++ [0]).length) env.globalAlloc,
         Call.globalLock env.globalAlloc env.lockMem,
         Call.moveMemory env.lockMem (captured env ++ [0]) (2 * (captured env ++ [0]).length),
         Call.globalUnlock env.globalAlloc,
         Call.setClipboardData CF_UNICODETEXT env.globalAlloc 0] ∧
      (∀ c ∈ r.calls, c.isFree = false) ∧
      r.out = [.setClipboardDataError] := by
  refine ⟨_, handler_unfold fuel n env wcl hwnd wparam lparam ho hf, ?_⟩
  rw [body_external env wcl hw4 hw0 hd hl ha hm hb, if_pos hs]
  simp only [runDeferred, cycleCalls, hs, true_and, and_true]
  intro c hc
  simp only [List.mem_append, List.mem_cons, List.not_mem_nil, or_false] at hc
  rcases hc with hc | hc
  · exact retryCalls_no_free n c hc
  · rcases hc with hc | hc | hc | hc | hc | hc | hc | hc | hc <;> subst hc <;> rfl

/-- Witness of C5: an external notification, the text "hi" on the clipboard,
and `SetClipboardData` returning zero. -/
theorem C5_fatal_path_never_frees_witness :
    ∃ r, wmClipboardUpdateHandler 1 envFatal (wclOf 1) 1 WM_CLIPBOARDUPDATE 1 0 = some r ∧
      r.exit = .osExit 1 ∧
      r.calls = retryCalls 0 ++
        [Call.getClipboardData CF_UNICODETEXT envFatal.getClipboardData,
         Call.globalLock envFatal.getClipboardData envFatal.lockData,
         Call.globalUnlock envFatal.getClipboardData,
         Call.emptyClipboard,
         Call.globalAlloc GMEM_MOVEABLE (2 * (captured envFatal ++ [0]).length) envFatal.globalAlloc,
         Call.globalLock envFatal.globalAlloc envFatal.lockMem,
         Call.moveMemory envFatal.lockMem (captured envFatal ++ [0])
           (2 * (captured envFatal ++ [0]).length),
         Call.globalUnlock envFatal.globalAlloc,
         Call.setClipboardData CF_UNICODETEXT envFatal.globalAlloc 0] ∧
      (∀ c ∈ r.calls, c.isFree = false) ∧
      r.out = [.setClipboardDataError] :=
  C5_fatal_path_never_frees 1 0 envFatal (wclOf 1) 1 1 0 (by decide) (by decide) (by decide)
    (by decide) (by decide) (by decide) (by decide) (by decide) (by decide) rfl

/-- Claim C6.  On an external notification with text present and a publish that
succeeds the handler makes exactly these calls in this order: the opening of the
clipboard, `getClipboardData(CF_UNICODETEXT)`, lock and unlock of the source
handle, `emptyClipboard`, `globalAlloc(GMEM_MOVEABLE, n)`, lock of the new
block, `moveMemory` of `n` bytes, unlock of the new block,
`setClipboardData(CF_UNICODETEXT, new block)`, `closeClipboard`; `n` is twice the
number of code units of the re-encoded text, terminator included, and no
`globalFree` is called. -/
theorem C6_success_path (fuel n : Nat) (env : Env) (wcl : WindowsClipboardListener)
    (hwnd wparam lparam : Nat) (ho : FirstSuccess env.openClipboard n) (hf : n < fuel)
    (hw4 : wcl.message.WParam ≠ 4) (hw0 : wcl.message.WParam ≠ 0)
    (hd : env.getClipboardData ≠ 0) (hl : env.lockData ≠ 0) (ha : env.globalAlloc ≠ 0)
    (hm : env.lockMem ≠ 0) (hb : ∀ u ∈ env.memory, u < 65536)
    (hs : env.setClipboardData ≠ 0) :
    ∃ r utf16, wmClipboardUpdateHandler fuel env wcl hwnd WM_CLIPBOARDUPDATE wparam lparam = some r ∧
      syscall.UTF16FromString r.copied = .ok utf16 ∧
      r.exit = .returned 0 .done ∧
      r.calls = retryCalls n ++
        [Call.getClipboardData CF_UNICODETEXT env.getClipboardData,
         Call.globalLock env.getClipboardData env.lockData,
         Call.globalUnlock env.getClipboardData,
         Call.emptyClipboard,
         Call.globalAlloc GMEM_MOVEABLE (2 * utf16.length) env.globalAlloc,
         Call.globalLock env.globalAlloc env.lockMem,
         Call.moveMemory env.lockMem utf16 (2 * utf16.length),
         Call.globalUnlock env.globalAlloc,
         Call.setClipboardData CF_UNICODETEXT env.globalAlloc env.setClipboardData,
         Call.closeClipboard] ∧
      (∀ c ∈ r.calls, c.isFree = false) := by
  refine ⟨_, captured env ++ [0], handler_unfold fuel n env wcl hwnd wparam lparam ho hf, ?_⟩
  rw [body_external env wcl hw4 hw0 hd hl ha hm hb, if_neg hs]
  simp only [runDeferred, cycleCalls, List.reverse_cons, List.reverse_nil, List.nil_append,
    List.append_assoc, List.cons_append, true_and]
  refine ⟨reencode_captured env hb, ?_⟩
  intro c hc
  simp only [List.mem_append, List.mem_cons, List.not_mem_nil, or_false] at hc
  rcases hc with hc | hc
  · exact retryCalls_no_free n c hc
  · rcases hc with hc | hc | hc | hc | hc | hc | hc | hc | hc | hc <;> subst hc <;> rfl

/-- Witness of C6: the text "hi" republished after one failed attempt to open. -/
theorem C6_success_path_witness :
    ∃ r utf16, wmClipboardUpdateHandler 2 envBusy (wclOf 1) 1 WM_CLIPBOARDUPDATE 1 0 = some r ∧
      syscall.UTF16FromString r.copied = .ok utf16 ∧
      r.exit = .returned 0 .done ∧
      r.calls = retryCalls 1 ++
        [Call.getClipboardData CF_UNICODETEXT envBusy.getClipboardData,
         Call.globalLock envBusy.getClipboardData envBusy.lockData,
         Call.globalUnlock envBusy.getClipboardData,
         Call.emptyClipboard,
         Call.globalAlloc GMEM_MOVEABLE (2 * utf16.length) envBusy.globalAlloc,
         Call.globalLock envBusy.globalAlloc envBusy.lockMem,
         Call.moveMemory envBusy.lockMem utf16 (2 * utf16.length),
         Call.globalUnlock envBusy.globalAlloc,
         Call.setClipboardData CF_UNICODETEXT envBusy.globalAlloc envBusy.setClipboardData,
         Call.closeClipboard] ∧
      (∀ c ∈ r.calls, c.isFree = false) :=
  C6_success_path 2 1 envBusy (wclOf 1) 1 1 0 (by decide) (by decide) (by decide)
    (by decide) (by decide) (by decide) (by decide) (by decide) (by decide) (by decide)

/-- What the handler captures when the clipboard memory holds the text `x`
as NUL-terminated UTF-16, `x` without U+0000 and of at most `2^20` code units:
the encoding of `x`. -/
theorem captured_nulTerminated (env : Env) (x : List Char) (rest : List Nat)
    (hx : ∀ c ∈ x, c.toNat ≠ 0) (hlen : (Reference.utf16Encode x).length ≤ 1048576)
    (hmem : env.memory = Reference.nulTerminated x ++ rest) :
    captured env = Reference.utf16Encode x := by
  unfold captured
  rw [hmem]
  have hz := Reference.utf16Encode_no_zero x hx
  have h20 : (1 <<< 20 : Nat) = 1048576 := by decide
  rw [h20]
  unfold Reference.nulTerminated
  rw [List.append_assoc, List.take_append_eq_append_take,
    List.take_of_length_le hlen]
  by_cases hfull : (Reference.utf16Encode x).length = 1048576
  · rw [hfull, Nat.sub_self, List.take_zero, List.append_nil]
    exact Codec.untilNUL_of_no_zero _ hz
  · have hpos : 1048576 - (Reference.utf16Encode x).length
        = (1048576 - (Reference.utf16Encode x).length - 1) + 1 := by omega
    rw [hpos, List.singleton_append, List.take_succ_cons]
    exact Codec.untilNUL_append_zero _ _ hz

/-- The text `a`, U+0000, `b` is cut at its own U+0000: the handler copies and
publishes `a` and a NUL. -/
theorem nulText_cut :
    envNul.memory = Reference.nulTerminated nulText ∧
    ∃ r, wmClipboardUpdateHandler 1 envNul (wclOf 1) 1 WM_CLIPBOARDUPDATE 1 0 = some r ∧
      r.exit = .returned 0 .done ∧
      Call.moveMemory envNul.lockMem [97, 0] 4 ∈ r.calls ∧
      [97, 0] ≠ Reference.nulTerminated nulText :=
  ⟨rfl, _, rfl, rfl, by decide, by decide⟩

/-- Counterexample to C2 as stated.  First, a text of `2^20 + 1` letters `a`: the
handler reads at most `2^20` code units, so what it copies into the new block
and publishes is `2^20` letters and a NUL, not the text that was on the
clipboard.  Second, the text `a`, U+0000, `b`: it is cut at its own U+0000. -/
theorem C2_counterexample :
    ((∀ c ∈ longText, c.toNat ≠ 0) ∧
    envLong.memory = Reference.nulTerminated longText ∧
    ∃ r, wmClipboardUpdateHandler 1 envLong (wclOf 1) 1 WM_CLIPBOARDUPDATE 1 0 = some r ∧
      r.exit = .returned 0 .done ∧
      Call.moveMemory envLong.lockMem (List.replicate 1048576 97 ++ [0]) 2097154 ∈ r.calls ∧
      List.replicate 1048576 97 ++ [0] ≠ Reference.nulTerminated longText) ∧
    (envNul.memory = Reference.nulTerminated nulText ∧
    ∃ r, wmClipboardUpdateHandler 1 envNul (wclOf 1) 1 WM_CLIPBOARDUPDATE 1 0 = some r ∧
      r.exit = .returned 0 .done ∧
      Call.moveMemory envNul.lockMem [97, 0] 4 ∈ r.calls ∧
      [97, 0] ≠ Reference.nulTerminated nulText) := by
  refine ⟨?_, nulText_cut⟩
  have henc : Reference.utf16Encode longText = List.replicate 1048577 97 :=
    Reference.utf16Encode_replicate 1048577
  have hmem : envLong.memory = List.replicate 1048577 97 ++ [0] := by
    show Reference.nulTerminated longText = _
    unfold Reference.nulTerminated
    rw [henc]
  have hcap : captured envLong = List.replicate 1048576 97 := by
    unfold captured
    have h20 : (1 <<< 20 : Nat) = 1048576 := by decide
    rw [hmem, h20, List.take_append_of_le_length (by rw [List.length_replicate]; omega),
      List.take_replicate]
    have hmin : min 1048576 1048577 = 1048576 := by omega
    rw [hmin]
    apply Codec.untilNUL_of_no_zero
    intro u hu
    rw [List.mem_replicate] at hu
    omega
  have hb : ∀ u ∈ envLong.memory, u < 65536 := by
    intro u hu
    rw [hmem, List.mem_append, List.mem_replicate, List.mem_singleton] at hu
    omega
  refine ⟨?_, rfl, _, handler_unfold 1 0 envLong (wclOf 1) 1 1 0 (by decide) (by decide), ?_⟩
  · intro c hc
    unfold longText at hc
    rw [List.mem_replicate] at hc
    rw [hc.2]
    decide
  · rw [body_external envLong (wclOf 1) (by decide) (by decide) (by decide) (by decide)
      (by decide) (by decide) hb, if_neg (by decide), hcap]
    refine ⟨rfl, ?_, ?_⟩
    · have hl : (List.replicate 1048576 97 ++ [0]).length = 1048577 := by
        rw [List.length_append, List.length_replicate, List.length_singleton]
      have hmv := cycleCalls_moveMemory envLong (List.replicate 1048576 97 ++ [0])
      rw [hl] at hmv
      exact mem_runDeferred _ _ (List.mem_append_right _ hmv)
    · intro h
      have h2 := congrArg List.length h
      unfold Reference.nulTerminated at h2
      rw [henc, List.length_append, List.length_append, List.length_replicate,
        List.length_replicate] at h2
      omega

/-- Claim C2, amended.  For every valid Unicode text `x` without U+0000 whose
UTF-16 encoding has at most `2^20` code units: if the clipboard memory holds `x`
as NUL-terminated UTF-16 when an external notification is handled (and the calls
the cycle makes succeed), the code units copied into the new block and published
are exactly the encoding of `x` followed by one NUL, so the text stored on the
clipboard afterwards is `x` and no other. -/
theorem C2_round_trip_amended (fuel n : Nat) (env : Env) (wcl : WindowsClipboardListener)
    (hwnd wparam lparam : Nat) (x : List Char) (rest : List Nat)
    (ho : FirstSuccess env.openClipboard n) (hf : n < fuel)
    (hw4 : wcl.message.WParam ≠ 4) (hw0 : wcl.message.WParam ≠ 0)
    (hd : env.getClipboardData ≠ 0) (hl : env.lockData ≠ 0) (ha : env.globalAlloc ≠ 0)
    (hm : env.lockMem ≠ 0) (hs : env.setClipboardData ≠ 0)
    (hx : ∀ c ∈ x, c.toNat ≠ 0) (hlen : (Reference.utf16Encode x).length ≤ 2 ^ 20)
    (hmem : env.memory = Reference.nulTerminated x ++ rest) (hrest : ∀ u ∈ rest, u < 65536) :
    ∃ r, wmClipboardUpdateHandler fuel env wcl hwnd WM_CLIPBOARDUPDATE wparam lparam = some r ∧
      r.exit = .returned 0 .done ∧
      Call.moveMemory env.lockMem (Reference.utf16Encode x ++ [0])
        (2 * (Reference.utf16Encode x ++ [0]).length) ∈ r.calls ∧
      Call.setClipboardData CF_UNICODETEXT env.globalAlloc env.setClipboardData ∈ r.calls ∧
      syscall.untilNUL (Reference.utf16Encode x ++ [0]) = Reference.utf16Encode x ∧
      ∀ y : List Char, Reference.nulTerminated y = Reference.utf16Encode x ++ [0] → y = x := by
  have hb : ∀ u ∈ env.memory, u < 65536 := by
    intro u hu
    rw [hmem] at hu
    unfold Reference.nulTerminated at hu
    simp only [List.mem_append, List.mem_singleton] at hu
    rcases hu with (hu | hu) | hu
    · exact Reference.utf16Encode_bound x u hu
    · omega
    · exact hrest u hu
  have hcap := captured_nulTerminated env x rest hx (by simpa using hlen) hmem
  refine ⟨_, handler_unfold fuel n env wcl hwnd wparam lparam ho hf, ?_⟩
  rw [body_external env wcl hw4 hw0 hd hl ha hm hb, if_neg hs, hcap]
  refine ⟨rfl, ?_, ?_, ?_, ?_⟩
  · exact mem_runDeferred _ _ (List.mem_append_right _ (cycleCalls_moveMemory env _))
  · exact mem_runDeferred _ _ (List.mem_append_right _ (cycleCalls_setClipboardData env _))
  · have := Codec.untilNUL_append_zero (Reference.utf16Encode x) []
      (Reference.utf16Encode_no_zero x hx)
    exact this
  · intro y hy
    exact Reference.nulTerminated_injective y x hy

/-- Witness of C2 amended: the text U+00E9 U+1F600 on a clipboard that is busy
once. -/
theorem C2_round_trip_amended_witness :
    ∃ r, wmClipboardUpdateHandler 2 envShort (wclOf 1) 1 WM_CLIPBOARDUPDATE 1 0 = some r ∧
      r.exit = .returned 0 .done ∧
      Call.moveMemory envShort.lockMem (Reference.utf16Encode shortText ++ [0])
        (2 * (Reference.utf16Encode shortText ++ [0]).length) ∈ r.calls ∧
      Call.setClipboardData CF_UNICODETEXT envShort.globalAlloc envShort.setClipboardData
        ∈ r.calls ∧
      syscall.untilNUL (Reference.utf16Encode shortText ++ [0]) = Reference.utf16Encode shortText ∧
      ∀ y : List Char, Reference.nulTerminated y = Reference.utf16Encode shortText ++ [0] →
        y = shortText :=
  C2_round_trip_amended 2 1 envShort (wclOf 1) 1 1 0 shortText [7, 0xD800] (by decide) (by decide)
    (by decide) (by decide) (by decide) (by decide) (by decide) (by decide) (by decide)
    (by decide) (by decide) rfl (by decide)

/-- With 16-bit words in memory the body never ends at the return that follows
a failed re-encoding, nor in an index-out-of-range panic at `&utf16[0]`. -/
theorem body_exit_safe (env : Env) (wcl : WindowsClipboardListener)
    (hb : ∀ u ∈ env.memory, u < 65536) :
    (∀ v, (clipboardUpdateBody env wcl).exit ≠ .returned v .encodeError) ∧
      (clipboardUpdateBody env wcl).exit ≠ .panicked .indexOutOfRange := by
  by_cases hw4 : wcl.message.WParam = 0x4
  · rw [body_selfSet env wcl hw4]
    simp
  by_cases hw0 : wcl.message.WParam = 0x0
  · rw [body_selfClear env wcl hw0]
    simp
  unfold clipboardUpdateBody
  have hlen : ¬ ((captured env ++ [0]).length = 0) := by simp
  simp only [hw4, hw0, if_false, reencode_captured env hb, hlen]
  split_ifs <;> simp

/-- Claim C10.  For every buffer `s` of 16-bit code units, well-formed or not,
the string `UTF16ToString s` has no NUL byte, `UTF16FromString` applied to it
returns no error but a slice of length at least one whose last element is its
only NUL; so the handler never leaves through the return that follows a failed
re-encoding and `&utf16[0]` is never out of range. -/
theorem C10_reencoding_never_fails (s : List Nat) (hs : ∀ u ∈ s, u < 65536) :
    (∀ b ∈ syscall.UTF16ToString s, b ≠ 0) ∧
    (∃ utf16, syscall.UTF16FromString (syscall.UTF16ToString s) = .ok utf16 ∧
      1 ≤ utf16.length ∧ utf16.getLast? = some 0 ∧ ∀ u ∈ utf16.dropLast, u ≠ 0) ∧
    ∀ (fuel : Nat) (env : Env) (wcl : WindowsClipboardListener) (hwnd msg wparam lparam : Nat)
      (r : Result), env.memory = s →
      wmClipboardUpdateHandler fuel env wcl hwnd msg wparam lparam = some r →
      (∀ v, r.exit ≠ .returned v .encodeError) ∧ r.exit ≠ .panicked .indexOutOfRange := by
  refine ⟨Codec.UTF16ToString_no_zero s, ⟨syscall.untilNUL s ++ [0],
    Codec.UTF16FromString_UTF16ToString s hs, by simp, by simp, ?_⟩, ?_⟩
  · intro u hu
    rw [List.dropLast_concat] at hu
    exact Codec.untilNUL_no_zero s u hu
  · intro fuel env wcl hwnd msg wparam lparam r hmem hr
    have hb : ∀ u ∈ env.memory, u < 65536 := by rw [hmem]; exact hs
    have hsafe := body_exit_safe env wcl hb
    unfold wmClipboardUpdateHandler at hr
    by_cases hmsg : msg = WM_CLIPBOARDUPDATE
    · rw [if_pos hmsg] at hr
      cases hopen : tryOpenWinApiClipboard fuel env.openClipboard 0 with
      | none => rw [hopen] at hr; simp at hr
      | some opened =>
        rw [hopen] at hr
        simp only [Option.some.injEq] at hr
        have hexit : r.exit = (clipboardUpdateBody env wcl).exit := by
          rw [← hr]
          unfold runDeferred
          split <;> rfl
        rw [hexit]
        exact hsafe
    · rw [if_neg hmsg] at hr
      simp only [Option.some.injEq] at hr
      rw [← hr]
      simp

/-- Witness of C10: a buffer with a lone surrogate, a pair, and text after the
first NUL. -/
theorem C10_reencoding_never_fails_witness :
    (∀ u ∈ [0xDC00, 0x41, 0xD83D, 0xDE00, 0, 0x42], u < 65536) ∧
    ((∀ b ∈ syscall.UTF16ToString [0xDC00, 0x41, 0xD83D, 0xDE00, 0, 0x42], b ≠ 0) ∧
    (∃ utf16, syscall.UTF16FromString (syscall.UTF16ToString [0xDC00, 0x41, 0xD83D, 0xDE00, 0, 0x42])
        = .ok utf16 ∧
      1 ≤ utf16.length ∧ utf16.getLast? = some 0 ∧ ∀ u ∈ utf16.dropLast, u ≠ 0) ∧
    ∀ (fuel : Nat) (env : Env) (wcl : WindowsClipboardListener) (hwnd msg wparam lparam : Nat)
      (r : Result), env.memory = [0xDC00, 0x41, 0xD83D, 0xDE00, 0, 0x42] →
      wmClipboardUpdateHandler fuel env wcl hwnd msg wparam lparam = some r →
      (∀ v, r.exit ≠ .returned v .encodeError) ∧ r.exit ≠ .panicked .indexOutOfRange) :=
  ⟨by decide, C10_reencoding_never_fails [0xDC00, 0x41, 0xD83D, 0xDE00, 0, 0x42] (by decide)⟩

/-- Claim C3.  Assume that the operating system posts one notification of
subtype 0 for `emptyClipboard` and one of subtype 4 for a `setClipboardData`
that succeeds.  Then, from a queue that holds one external notification (text
present, every call of the cycle succeeding), the `listen` loop makes exactly
three dispatches: the first runs one capture and republish cycle and causes
exactly two further notifications, of subtypes 0 and 4; these are handled at the
self-clear and self-set returns, run no cycle and cause no notification; the
queue is then empty and the loop blocks in `getMessage`.  One cycle in all. -/
theorem C3_no_recursion (fuel iters n0 n1 n2 : Nat) (w : World)
    (wcl : WindowsClipboardListener) (m : MSG)
    (hpost : w.post = selfNotifications m.Hwnd)
    (hmsg : m.Message = WM_CLIPBOARDUPDATE) (hw4 : m.WParam ≠ 4) (hw0 : m.WParam ≠ 0)
    (ho0 : FirstSuccess (w.env 0).openClipboard n0) (hf0 : n0 < fuel)
    (ho1 : FirstSuccess (w.env 1).openClipboard n1) (hf1 : n1 < fuel)
    (ho2 : FirstSuccess (w.env 2).openClipboard n2) (hf2 : n2 < fuel)
    (hd : (w.env 0).getClipboardData ≠ 0) (hl : (w.env 0).lockData ≠ 0)
    (ha : (w.env 0).globalAlloc ≠ 0) (hm : (w.env 0).lockMem ≠ 0)
    (hs : (w.env 0).setClipboardData ≠ 0) (hb : ∀ u ∈ (w.env 0).memory, u < 65536)
    (hit : 3 ≤ iters) :
    ∃ r0 r1 r2,
      (listen fuel w iters ⟨wcl, [m], [], .running⟩).history = [r0, r1, r2] ∧
      (listen fuel w iters ⟨wcl, [m], [], .running⟩).queue = [] ∧
      (4 ≤ iters → (listen fuel w iters ⟨wcl, [m], [], .running⟩).status = .blocked) ∧
      r0.exit = .returned 0 .done ∧ startsCycle r0 = true ∧
      w.post r0.calls = [⟨m.Hwnd, WM_CLIPBOARDUPDATE, 0, 0, 0, ⟨0, 0⟩⟩,
        ⟨m.Hwnd, WM_CLIPBOARDUPDATE, 4, 0, 0, ⟨0, 0⟩⟩] ∧
      r1.exit = .returned 0 .selfClear ∧ startsCycle r1 = false ∧ w.post r1.calls = [] ∧
      r2.exit = .returned 0 .selfSet ∧ startsCycle r2 = false ∧ w.post r2.calls = [] ∧
      [r0, r1, r2].countP startsCycle = 1 := by
  obtain ⟨k, rfl⟩ : ∃ k, iters = k + 3 := ⟨iters - 3, by omega⟩
  -- first dispatch: the external notification
  have hr0 := handler_done fuel n0 (w.env 0) { wcl with message := m } m.Hwnd m.WParam m.LParam
    ho0 hf0 hw4 hw0 hd hl ha hm hb hs
  have hp0 := selfNotifications_cycle m.Hwnd n0 (w.env 0) (captured (w.env 0) ++ [0]) hs
  have hc0 := startsCycle_cycle n0 (w.env 0) (captured (w.env 0) ++ [0])
    [.setClipboardDataOK, .copiedAt] (syscall.UTF16ToString ((w.env 0).memory.take (1 <<< 20)))
    (.returned 0 .done)
  generalize hr0def : (⟨retryCalls n0 ++ cycleCalls (w.env 0) (captured (w.env 0) ++ [0])
      ++ [Call.closeClipboard], [.setClipboardDataOK, .copiedAt],
      syscall.UTF16ToString ((w.env 0).memory.take (1 <<< 20)), .returned 0 .done⟩ : Result) = r0
      at hr0 hc0
  have he0 : r0.exit = .returned 0 .done := by rw [← hr0def]
  have hq0 : w.post r0.calls = [⟨m.Hwnd, WM_CLIPBOARDUPDATE, 0, 0, 0, ⟨0, 0⟩⟩,
      ⟨m.Hwnd, WM_CLIPBOARDUPDATE, 4, 0, 0, ⟨0, 0⟩⟩] := by
    rw [hpost, ← hr0def]
    exact hp0
  have hs1 : listenStep fuel w ⟨wcl, [m], [], .running⟩ =
      ⟨⟨wcl.wndHandler, m, r0.copied⟩, [] ++ w.post r0.calls, [] ++ [r0], .running⟩ :=
    listenStep_dispatch fuel w ⟨wcl, [m], [], .running⟩ m [] r0 0 .done rfl rfl hmsg hr0 he0
  rw [hq0] at hs1
  -- second dispatch: the notification of subtype 0
  have hr1 := handler_selfClear fuel n1 (w.env 1)
    ⟨wcl.wndHandler, ⟨m.Hwnd, WM_CLIPBOARDUPDATE, 0, 0, 0, ⟨0, 0⟩⟩, r0.copied⟩ m.Hwnd 0 0 ho1 hf1 rfl
  have hs2 : listenStep fuel w ⟨⟨wcl.wndHandler, m, r0.copied⟩,
      [⟨m.Hwnd, WM_CLIPBOARDUPDATE, 0, 0, 0, ⟨0, 0⟩⟩, ⟨m.Hwnd, WM_CLIPBOARDUPDATE, 4, 0, 0, ⟨0, 0⟩⟩],
      [r0], .running⟩ = _ :=
    listenStep_dispatch fuel w _ ⟨m.Hwnd, WM_CLIPBOARDUPDATE, 0, 0, 0, ⟨0, 0⟩⟩
      [⟨m.Hwnd, WM_CLIPBOARDUPDATE, 4, 0, 0, ⟨0, 0⟩⟩] _ 0 .selfClear rfl rfl rfl hr1 rfl
  have hq1 : w.post (retryCalls n1 ++ [Call.closeClipboard]) = [] := by
    rw [hpost]
    exact selfNotifications_self m.Hwnd n1
  -- third dispatch: the notification of subtype 4
  have hr2 := handler_selfSet fuel n2 (w.env 2)
    ⟨wcl.wndHandler, ⟨m.Hwnd, WM_CLIPBOARDUPDATE, 4, 0, 0, ⟨0, 0⟩⟩, r0.copied⟩ m.Hwnd 4 0 ho2 hf2 rfl
  have hq2 : w.post (retryCalls n2 ++ [Call.closeClipboard]) = [] := by
    rw [hpost]
    exact selfNotifications_self m.Hwnd n2
  have hs3 : listenStep fuel w ⟨⟨wcl.wndHandler, ⟨m.Hwnd, WM_CLIPBOARDUPDATE, 0, 0, 0, ⟨0, 0⟩⟩,
        r0.copied⟩, [⟨m.Hwnd, WM_CLIPBOARDUPDATE, 4, 0, 0, ⟨0, 0⟩⟩],
      [r0, ⟨retryCalls n1 ++ [Call.closeClipboard], [], r0.copied, .returned 0 .selfClear⟩],
      .running⟩ = _ :=
    listenStep_dispatch fuel w _ ⟨m.Hwnd, WM_CLIPBOARDUPDATE, 4, 0, 0, ⟨0, 0⟩⟩ [] _ 0 .selfSet
      rfl rfl rfl hr2 rfl
  have hrun : listen fuel w (k + 3) ⟨wcl, [m], [], .running⟩ =
      listen fuel w k ⟨⟨wcl.wndHandler, ⟨m.Hwnd, WM_CLIPBOARDUPDATE, 4, 0, 0, ⟨0, 0⟩⟩, r0.copied⟩,
        [], [r0, ⟨retryCalls n1 ++ [Call.closeClipboard], [], r0.copied, .returned 0 .selfClear⟩,
          ⟨retryCalls n2 ++ [Call.closeClipboard], [], r0.copied, .returned 0 .selfSet⟩],
        .running⟩ := by
    rw [listen, hs1, listen]
    simp only [List.nil_append] at hs2 ⊢
    rw [hs2, hq1, listen]
    simp only [List.cons_append, List.nil_append, List.append_nil] at hs3 ⊢
    rw [hs3, hq2]
  refine ⟨r0, ⟨retryCalls n1 ++ [Call.closeClipboard], [], r0.copied, .returned 0 .selfClear⟩,
    ⟨retryCalls n2 ++ [Call.closeClipboard], [], r0.copied, .returned 0 .selfSet⟩, ?_⟩
  have hfinal : ∀ p : Process, p.status = .running → p.queue = [] →
      (listen fuel w k p).history = p.history ∧ (listen fuel w k p).queue = [] ∧
        (1 ≤ k → (listen fuel w k p).status = .blocked) := by
    intro p hst hq
    cases k with
    | zero => exact ⟨rfl, hq, fun h => absurd h (by omega)⟩
    | succ j =>
      rw [listen, listenStep_blocked fuel w p hst hq, listen_blocked fuel w j _ rfl]
      exact ⟨rfl, hq, fun _ => rfl⟩
  obtain ⟨h1, h2, h3⟩ := hfinal _ (by rfl : (⟨⟨wcl.wndHandler,
      ⟨m.Hwnd, WM_CLIPBOARDUPDATE, 4, 0, 0, ⟨0, 0⟩⟩, r0.copied⟩, [],
      [r0, ⟨retryCalls n1 ++ [Call.closeClipboard], [], r0.copied, .returned 0 .selfClear⟩,
        ⟨retryCalls n2 ++ [Call.closeClipboard], [], r0.copied, .returned 0 .selfSet⟩],
      .running⟩ : Process).status = .running) rfl
  rw [hrun]
  refine ⟨h1, h2, fun h => h3 (by omega), he0, hc0, hq0, rfl, startsCycle_self n1 _ _ _, hq1, rfl,
    startsCycle_self n2 _ _ _, hq2, ?_⟩
  rw [List.countP_cons, List.countP_cons, List.countP_cons, List.countP_nil, hc0,
    startsCycle_self n1, startsCycle_self n2]
  rfl

/-- Witness of C3: the text "hi" copied by another program while the clipboard
is busy once; five iterations of the loop. -/
theorem C3_no_recursion_witness :
    ∃ r0 r1 r2,
      (listen 2 worldText 5 ⟨wclOf 1, [msgOf 1], [], .running⟩).history = [r0, r1, r2] ∧
      (listen 2 worldText 5 ⟨wclOf 1, [msgOf 1], [], .running⟩).queue = [] ∧
      (4 ≤ 5 → (listen 2 worldText 5 ⟨wclOf 1, [msgOf 1], [], .running⟩).status = .blocked) ∧
      r0.exit = .returned 0 .done ∧ startsCycle r0 = true ∧
      worldText.post r0.calls = [⟨(msgOf 1).Hwnd, WM_CLIPBOARDUPDATE, 0, 0, 0, ⟨0, 0⟩⟩,
        ⟨(msgOf 1).Hwnd, WM_CLIPBOARDUPDATE, 4, 0, 0, ⟨0, 0⟩⟩] ∧
      r1.exit = .returned 0 .selfClear ∧ startsCycle r1 = false ∧ worldText.post r1.calls = [] ∧
      r2.exit = .returned 0 .selfSet ∧ startsCycle r2 = false ∧ worldText.post r2.calls = [] ∧
      [r0, r1, r2].countP startsCycle = 1 :=
  C3_no_recursion 2 5 1 0 0 worldText (wclOf 1) (msgOf 1) rfl rfl (by decide) (by decide)
    (by decide) (by decide) (by decide) (by decide) (by decide) (by decide)
    (by decide) (by decide) (by decide) (by decide) (by decide) (by decide) (by decide)

end ClipListener

